import Mathlib

set_option linter.unusedVariables false

/-!
Verification development for the Falael.Audio.Sda audio-analysis pipeline
(`src/py`).  The Python sources are shallowly embedded: Python dicts become
insertion-ordered association lists, fallible operations become `Except`,
external collaborators (the file system, `numpy`/`soundfile` numerics, the
`sox` subprocess) become function parameters, and the pipeline driver in
`main.py` becomes a pure state-transformer over an abstract per-track file
state.
-/

set_option maxHeartbeats 1000000

namespace Sda

/-! ## Python dict model

A Python `dict` preserves insertion order; we model it as an association
list.  `setKey` mirrors `d[k] = v` (replace in place if the key exists,
append otherwise); `appendAt` mirrors `d[k].append(e)` on an existing key
(`KeyError` on a missing key never occurs at the call sites we embed, the
missing-key case is a no-op here). -/

abbrev Doc (α : Type) := List (String × α)

def getKey {α : Type} : Doc α → String → Option α
  | [], _ => none
  | (k, v) :: rest, key => if k = key then some v else getKey rest key

def containsKey {α : Type} (d : Doc α) (k : String) : Bool :=
  (getKey d k).isSome

def getD {α : Type} (d : Doc α) (k : String) (v₀ : α) : α :=
  (getKey d k).getD v₀

def setKey {α : Type} : Doc α → String → α → Doc α
  | [], key, v => [(key, v)]
  | (k, w) :: rest, key, v =>
      if k = key then (k, v) :: rest else (k, w) :: setKey rest key v

def appendAt {α : Type} : Doc (List α) → String → α → Doc (List α)
  | [], _, _ => []
  | (k, l) :: rest, key, e =>
      if k = key then (k, l ++ [e]) :: rest else (k, l) :: appendAt rest key e

def keysOf {α : Type} (d : Doc α) : List String := d.map Prod.fst

@[simp] theorem getKey_nil {α : Type} (k : String) : getKey ([] : Doc α) k = none := rfl

theorem getKey_cons {α : Type} (k key : String) (v : α) (rest : Doc α) :
    getKey ((k, v) :: rest) key = if k = key then some v else getKey rest key := rfl

theorem setKey_cons {α : Type} (k key : String) (w v : α) (rest : Doc α) :
    setKey ((k, w) :: rest) key v =
      if k = key then (k, v) :: rest else (k, w) :: setKey rest key v := rfl

theorem getKey_setKey_self {α : Type} (d : Doc α) (k : String) (v : α) :
    getKey (setKey d k v) k = some v := by
  induction d with
  | nil => simp [setKey, getKey]
  | cons p rest ih =>
      obtain ⟨k', w⟩ := p
      by_cases h : k' = k
      · simp [setKey, getKey, h]
      · simp [setKey, getKey, h, ih]

theorem getKey_setKey_ne {α : Type} (d : Doc α) (k k' : String) (v : α) (h : k ≠ k') :
    getKey (setKey d k v) k' = getKey d k' := by
  induction d with
  | nil => simp [setKey, getKey, h]
  | cons p rest ih =>
      obtain ⟨k₀, w⟩ := p
      by_cases h₀ : k₀ = k
      · subst h₀; simp [setKey, getKey, h]
      · simp [setKey, getKey, h₀, ih]

theorem containsKey_setKey_self {α : Type} (d : Doc α) (k : String) (v : α) :
    containsKey (setKey d k v) k = true := by
  simp [containsKey, getKey_setKey_self]

theorem containsKey_setKey_mono {α : Type} (d : Doc α) (k k' : String) (v : α)
    (h : containsKey d k' = true) : containsKey (setKey d k v) k' = true := by
  by_cases hk : k = k'
  · subst hk; simp [containsKey, getKey_setKey_self]
  · simpa [containsKey, getKey_setKey_ne d k k' v hk] using h

theorem keysOf_appendAt {α : Type} (d : Doc (List α)) (k : String) (e : α) :
    keysOf (appendAt d k e) = keysOf d := by
  induction d with
  | nil => rfl
  | cons p rest ih =>
      obtain ⟨k₀, l⟩ := p
      by_cases h : k₀ = k
      · simp [appendAt, keysOf, h]
      · simp [appendAt, keysOf, h] at ih ⊢; exact ih

theorem getKey_append {α : Type} (d₁ d₂ : Doc α) (k : String) :
    getKey (d₁ ++ d₂) k = ((getKey d₁ k).map some).getD (getKey d₂ k) := by
  induction d₁ with
  | nil => simp
  | cons p rest ih =>
      obtain ⟨k₀, v⟩ := p
      by_cases h : k₀ = k
      · simp [getKey, h]
      · simp [getKey, h, ih]

theorem containsKey_eq_false {α : Type} (d : Doc α) (k : String) :
    containsKey d k = false ↔ getKey d k = none := by
  unfold containsKey
  cases getKey d k <;> simp

theorem setKey_fresh {α : Type} (d : Doc α) (k : String) (v : α)
    (h : containsKey d k = false) : setKey d k v = d ++ [(k, v)] := by
  induction d with
  | nil => rfl
  | cons p rest ih =>
      obtain ⟨k₀, w⟩ := p
      by_cases h₀ : k₀ = k
      · simp [containsKey, getKey, h₀] at h
      · simp [containsKey, getKey, h₀] at h
        simp [setKey, h₀, ih (by simp [containsKey, h])]

/-! ### Documents of the shape `M.map (fun i => (key i, h i))`

Every banded module builds its output dict with the keys `key 0, …,
key (bands-1)` in order; these lemmas characterise lookups, updates and
fold passes over such documents.  `hinj` states that the band-key format
is injective on the relevant index list. -/

theorem getKey_mapForm {ι α : Type} (M : List ι) (key : ι → String) (h : ι → α)
    (hinj : ∀ i ∈ M, ∀ j ∈ M, key i = key j → i = j) (j : ι) (hj : j ∈ M) :
    getKey (M.map (fun i => (key i, h i))) (key j) = some (h j) := by
  induction M with
  | nil => simp at hj
  | cons a M ih =>
      by_cases ha : key a = key j
      · have : a = j := hinj a (by simp) j hj ha
        subst this
        simp [getKey]
      · have hj' : j ∈ M := by
          rcases List.mem_cons.mp hj with h' | h'
          · exact absurd (by rw [h']) ha
          · exact h'
        simp only [List.map_cons, getKey, ha, if_false]
        exact ih (fun i hi k hk => hinj i (List.mem_cons_of_mem _ hi) k (List.mem_cons_of_mem _ hk)) hj'

theorem appendAt_mapForm {α : Type} (M : List ℕ) (key : ℕ → String) (h : ℕ → List α)
    (hnd : M.Nodup) (hinj : ∀ i ∈ M, ∀ j ∈ M, key i = key j → i = j)
    (j : ℕ) (hj : j ∈ M) (e : α) :
    appendAt (M.map (fun i => (key i, h i))) (key j) e =
      M.map (fun i => (key i, if i = j then h i ++ [e] else h i)) := by
  induction M with
  | nil => simp at hj
  | cons a M ih =>
      rcases List.nodup_cons.mp hnd with ⟨hna, hndM⟩
      by_cases ha : key a = key j
      · have haj : a = j := hinj a (by simp) j hj ha
        subst haj
        simp only [List.map_cons]
        rw [show appendAt ((key a, h a) :: M.map (fun i => (key i, h i))) (key a) e
              = (key a, h a ++ [e]) :: M.map (fun i => (key i, h i)) from by simp [appendAt]]
        congr 1
        apply List.map_congr_left
        intro i hi
        have : i ≠ a := fun hc => hna (hc ▸ hi)
        simp [this]
      · have haj : a ≠ j := fun hc => ha (by rw [hc])
        have hj' : j ∈ M := by
          rcases List.mem_cons.mp hj with h' | h'
          · exact absurd h'.symm haj
          · exact h'
        simp only [List.map_cons, appendAt, ha, if_false, if_neg haj]
        congr 1
        exact ih hndM (fun i hi k hk => hinj i (List.mem_cons_of_mem _ hi) k (List.mem_cons_of_mem _ hk)) hj'

theorem appendPass {α : Type} (L M : List ℕ) (key : ℕ → String) (g : ℕ → α) (h : ℕ → List α)
    (hsub : ∀ i ∈ L, i ∈ M) (hndL : L.Nodup) (hndM : M.Nodup)
    (hinj : ∀ i ∈ M, ∀ j ∈ M, key i = key j → i = j) :
    L.foldl (fun d i => appendAt d (key i) (g i)) (M.map (fun i => (key i, h i))) =
      M.map (fun i => (key i, if i ∈ L then h i ++ [g i] else h i)) := by
  induction L generalizing h with
  | nil => simp
  | cons b L ih =>
      rcases List.nodup_cons.mp hndL with ⟨hnb, hndL'⟩
      have hbM : b ∈ M := hsub b (by simp)
      simp only [List.foldl_cons]
      rw [appendAt_mapForm M key h hndM hinj b hbM (g b)]
      have step :
          M.map (fun i => (key i, if i = b then h i ++ [g i] else h i)) =
            M.map (fun i => (key i, if i = b then h i ++ [g b] else h i)) := by
        apply List.map_congr_left
        intro i _
        by_cases hib : i = b
        · subst hib; simp
        · simp [hib]
      rw [← step]
      rw [ih (fun i => if i = b then h i ++ [g i] else h i)
            (fun i hi => hsub i (List.mem_cons_of_mem _ hi)) hndL']
      apply List.map_congr_left
      intro i _
      by_cases hib : i = b
      · subst hib
        simp [hnb]
      · by_cases hiL : i ∈ L <;> simp [hib, hiL]

theorem initFold {ι α : Type} (L : List ι) (key : ι → String) (g : ι → α) (d₀ : Doc α)
    (hnd : L.Nodup) (hinj : ∀ i ∈ L, ∀ j ∈ L, key i = key j → i = j)
    (hfresh : ∀ i ∈ L, containsKey d₀ (key i) = false) :
    L.foldl (fun d i => setKey d (key i) (g i)) d₀ = d₀ ++ L.map (fun i => (key i, g i)) := by
  induction L generalizing d₀ with
  | nil => simp
  | cons a L ih =>
      rcases List.nodup_cons.mp hnd with ⟨hna, hndL⟩
      have hinj' : ∀ i ∈ L, ∀ j ∈ L, key i = key j → i = j :=
        fun i hi k hk => hinj i (List.mem_cons_of_mem _ hi) k (List.mem_cons_of_mem _ hk)
      have hfresh' : ∀ i ∈ L, containsKey (d₀ ++ [(key a, g a)]) (key i) = false := by
        intro i hi
        have hne : key a ≠ key i := by
          intro hc
          exact hna ((hinj a (by simp) i (List.mem_cons_of_mem _ hi) hc) ▸ hi)
        have h₀ : getKey d₀ (key i) = none :=
          (containsKey_eq_false _ _).mp (hfresh i (List.mem_cons_of_mem _ hi))
        rw [containsKey_eq_false, getKey_append, h₀]
        simp [getKey, hne]
      simp only [List.foldl_cons]
      rw [setKey_fresh d₀ (key a) (g a) (hfresh a (by simp))]
      rw [ih (d₀ ++ [(key a, g a)]) hndL hinj' hfresh']
      simp

theorem bandPass_range {α : Type} (bands : ℕ) (key : ℕ → String) (g : ℕ → α) (h : ℕ → List α)
    (hinj : ∀ i ∈ List.range bands, ∀ j ∈ List.range bands, key i = key j → i = j) :
    (List.range bands).foldl (fun d i => appendAt d (key i) (g i))
        ((List.range bands).map (fun i => (key i, h i))) =
      (List.range bands).map (fun i => (key i, h i ++ [g i])) := by
  rw [appendPass (List.range bands) (List.range bands) key g h (fun i hi => hi)
        (List.nodup_range bands) (List.nodup_range bands) hinj]
  apply List.map_congr_left
  intro i hi
  simp [hi]

theorem chunkFold {α : Type} (bands : ℕ) (key : ℕ → String) (f : String → ℕ → α)
    (cs : List String) (h : ℕ → List α)
    (hinj : ∀ i ∈ List.range bands, ∀ j ∈ List.range bands, key i = key j → i = j) :
    cs.foldl (fun d c => (List.range bands).foldl (fun d i => appendAt d (key i) (f c i)) d)
        ((List.range bands).map (fun i => (key i, h i))) =
      (List.range bands).map (fun i => (key i, h i ++ cs.map (fun c => f c i))) := by
  induction cs generalizing h with
  | nil => simp
  | cons c cs ih =>
      simp only [List.foldl_cons]
      rw [bandPass_range bands key (fun i => f c i) h hinj]
      rw [ih (fun i => h i ++ [f c i])]
      simp

theorem keysOf_foldl {α β : Type} (step : Doc α → β → Doc α) (l : List β) (d : Doc α)
    (hstep : ∀ d b, keysOf (step d b) = keysOf d) :
    keysOf (l.foldl step d) = keysOf d := by
  induction l generalizing d with
  | nil => rfl
  | cons b l ih => simp only [List.foldl_cons]; rw [ih, hstep]

/-! ## Module-result entries

A per-chunk (or per-chunk-per-band) result object: the `chunk` identifier,
the module's numeric fields (each an optional exact value; `None` in Python
is `none` here), and an optional `error` string.  Numeric values from the
DSP layer are represented as exact rationals; the DSP formulas themselves
are out of scope (see spec §1) and enter as function parameters. -/

structure Entry where
  chunk : String
  fields : List (String × Option ℚ)
  error : Option String
deriving DecidableEq, Inhabited

/-- The error entry every module appends when a whole chunk fails: every
numeric field of the module is null and `error` is populated. -/
def nullErrEntry (names : List String) (c e : String) : Entry :=
  ⟨c, names.map (fun f => (f, none)), some e⟩

/-- Top-level output of a banded module: `{"result": {band: [entries]}}`
or `{"error": msg}`. -/
inductive BandedOut where
  | result (d : Doc (List Entry))
  | error (s : String)
deriving DecidableEq

/-- Top-level output of a flat (non-banded) module. -/
inductive FlatOut where
  | result (l : List Entry)
  | error (s : String)
deriving DecidableEq

def BandedOut.isError : BandedOut → Bool
  | .error _ => true
  | .result _ => false

/-- Python `int()` applied to a nonnegative-or-negative rational: truncation
toward zero, as used when formatting band keys from `np.logspace` edges. -/
def pyInt (q : ℚ) : ℤ := if q < 0 then -((-q).floor) else q.floor

/-- Model of `os.path.join(out_path, chunk)` with a fixed separator. -/
def pathJoin (a b : String) : String := a ++ "/" ++ b

/-- Modelled from the spec: the Parallel Work Splitter
(`lib/chunk_parallel_process.py`) is imported by every fan-out module as
`chunk_parallel_process(callback, chunk_list, out_path, context, max_workers,
use_processes)` but its source file is not in the snapshot; only its callers
are.  Per spec section 4.3, items are dispatched to a worker pool and may
complete in an arbitrary order - modelled by the extra `schedule` argument
listing item indices in completion order - and results are collected back
into the original item order; each callback invocation receives
`(chunk_index, chunk_filename, chunk_path, context)` and the read-only
context; `max_workers` and `use_processes` select pool size and
thread/process execution and must have no effect on the value computed. -/
def chunk_parallel_process {α Ctx : Type} [Inhabited α]
    (callback : ℕ → String → String → Ctx → α)
    (chunk_list : List String) (out_path : String) (context : Ctx)
    (max_workers : Option ℕ) (use_processes : Bool) (schedule : List ℕ) : List α :=
  let completed := schedule.map
    (fun i => (i, callback i (chunk_list.getD i "") (pathJoin out_path (chunk_list.getD i "")) context))
  (List.range chunk_list.length).map
    (fun i => match completed.find? (fun p => p.1 == i) with
      | some p => p.2
      | none => default)

theorem find?_map_pair {α : Type} (sch : List ℕ) (v : ℕ → α) (i : ℕ) (hi : i ∈ sch) :
    (sch.map (fun j => (j, v j))).find? (fun p => p.1 == i) = some (i, v i) := by
  induction sch with
  | nil => simp at hi
  | cons j sch ih =>
      by_cases hj : j = i
      · subst hj
        simp [List.find?]
      · have hji : (j == i) = false := by simpa using hj
        have hi' : i ∈ sch := by
          rcases List.mem_cons.mp hi with h' | h'
          · exact absurd h'.symm hj
          · exact h'
        simpa [List.find?, hji] using ih hi'

/-! ## `src/py/x2/dynamics.py` (sequential banded module) -/

namespace Dynamics

/-- Numeric field names of a per-chunk-per-band dynamics entry
(`dynamics.py`, `analyze_band_dynamics` result / error-entry dicts). -/
def fieldNames : List String :=
  ["peak_dbfs", "rms_dbfs", "crest_factor_db", "peak_dyn_range_db",
   "rms_dyn_range_db", "avg_crest_factor_db", "std_crest_factor_db"]

/-- Band key `f"{int(f_low)}Hz-{int(f_high)}Hz"` (dynamics.py lines
117-127); `edges` is the exact value of the `np.logspace` edge array, a
deterministic function of the `(low_hz, high_hz, bands)` config triple. -/
def rangeKey (edges : ℕ → ℚ) (i : ℕ) : String :=
  toString (pyInt (edges i)) ++ "Hz-" ++ toString (pyInt (edges (i + 1))) ++ "Hz"

/-- One band's entry for a successfully read chunk: `bandpass` +
`analyze_band_dynamics` are swappable DSP externals (spec section 1),
modelled by `analyze`; an exception inside them is caught and recorded as a
null-field error entry (dynamics.py lines 156-181). -/
def bandEntry {Data : Type} (analyze : Data → ℕ → Except String Entry)
    (c : String) (data : Data) (i : ℕ) : Entry :=
  match analyze data i with
  | .ok ent => ent
  | .error e => nullErrEntry fieldNames c e

/-- `process` of `dynamics.py`.  `read` models `sf.read(chunk_path)` plus
mono conversion (raising becomes `.error`); `split_chunks` is
`previous.get("split", {}).get("chunks", ...)`, `none` when the key path is
missing (both the missing and the empty case give chunk_list `[]`, line
107).  The guard, the band-key initialisation, the per-chunk read with its
all-band error fan-out, and the per-band append loop follow lines 106-183. -/
def process {Data : Type} (read : String → Except String Data)
    (analyze : Data → ℕ → Except String Entry)
    (edges : ℕ → ℚ) (bands : ℕ) (out_path : String)
    (split_chunks : Option (List String)) : BandedOut :=
  let chunk_list := split_chunks.getD []
  if chunk_list.isEmpty then .error "Missing or empty split result."
  else
    let output := (List.range bands).foldl
      (fun d i => setKey d (rangeKey edges i) []) []
    let output := chunk_list.foldl
      (fun d c =>
        match read (pathJoin out_path c) with
        | .error e => (List.range bands).foldl
            (fun d i => appendAt d (rangeKey edges i) (nullErrEntry fieldNames c e)) d
        | .ok data => (List.range bands).foldl
            (fun d i => appendAt d (rangeKey edges i) (bandEntry analyze c data i)) d)
      output
    .result output

/-- The entry `process` records for chunk `c` in band `i`. -/
def chunkEntry {Data : Type} (read : String → Except String Data)
    (analyze : Data → ℕ → Except String Entry) (out_path : String)
    (c : String) (i : ℕ) : Entry :=
  match read (pathJoin out_path c) with
  | .error e => nullErrEntry fieldNames c e
  | .ok data => bandEntry analyze c data i

theorem dynamics_process_char {Data : Type} (read : String → Except String Data)
    (analyze : Data → ℕ → Except String Entry)
    (edges : ℕ → ℚ) (bands : ℕ) (out_path : String) (cs : List String)
    (hinj : ∀ i ∈ List.range bands, ∀ j ∈ List.range bands,
      rangeKey edges i = rangeKey edges j → i = j)
    (hcs : cs ≠ []) :
    process read analyze edges bands out_path (some cs) =
      .result ((List.range bands).map (fun i =>
        (rangeKey edges i, cs.map (fun c => chunkEntry read analyze out_path c i)))) := by
  unfold process
  rw [show (some cs).getD [] = cs from rfl]
  rw [if_neg (by simpa using hcs)]
  rw [initFold (List.range bands) (rangeKey edges) (fun _ => ([] : List Entry)) []
        (List.nodup_range bands) hinj (fun i _ => rfl)]
  simp only [List.nil_append]
  have hstep :
      (fun (d : Doc (List Entry)) (c : String) =>
        match read (pathJoin out_path c) with
        | .error e => (List.range bands).foldl
            (fun d i => appendAt d (rangeKey edges i) (nullErrEntry fieldNames c e)) d
        | .ok data => (List.range bands).foldl
            (fun d i => appendAt d (rangeKey edges i) (bandEntry analyze c data i)) d) =
      (fun (d : Doc (List Entry)) (c : String) =>
        (List.range bands).foldl
          (fun d i => appendAt d (rangeKey edges i) (chunkEntry read analyze out_path c i)) d) := by
    funext d c
    cases hread : read (pathJoin out_path c) with
    | error e => simp only [chunkEntry, hread]
    | ok data => simp only [chunkEntry, hread]
  rw [hstep]
  rw [chunkFold bands (rangeKey edges) (chunkEntry read analyze out_path) cs (fun _ => []) hinj]
  simp

end Dynamics

/-! ## `src/py/x2/quantization.py` (sequential banded module) -/

namespace Quantization

/-- Numeric field names of a per-chunk-per-band quantization entry
(`quantization.py`, `analyze_band_quantization` result / error-entry
dicts). -/
def fieldNames : List String :=
  ["estimated_bits", "unique_levels", "avg_noise_floor_db", "noise_floor_std_db",
   "avg_spectral_slope_db", "spectral_slope_std_db", "dynamic_range_db"]

/-- Band key `f"{int(f_low)}Hz-{int(f_high)}Hz"` (quantization.py lines
152-163), the module's own copy of the formatting code. -/
def rangeKey (edges : ℕ → ℚ) (i : ℕ) : String :=
  toString (pyInt (edges i)) ++ "Hz-" ++ toString (pyInt (edges (i + 1))) ++ "Hz"

/-- One band's entry for a successfully read chunk (`bandpass` +
`analyze_band_quantization` as DSP externals, exceptions caught per band,
quantization.py lines 191-216). -/
def bandEntry {Data : Type} (analyze : Data → ℕ → Except String Entry)
    (c : String) (data : Data) (i : ℕ) : Entry :=
  match analyze data i with
  | .ok ent => ent
  | .error e => nullErrEntry fieldNames c e

/-- `process` of `quantization.py`, lines 139-218; structure identical to
`dynamics.py` with quantization's field set. -/
def process {Data : Type} (read : String → Except String Data)
    (analyze : Data → ℕ → Except String Entry)
    (edges : ℕ → ℚ) (bands : ℕ) (out_path : String)
    (split_chunks : Option (List String)) : BandedOut :=
  let chunk_list := split_chunks.getD []
  if chunk_list.isEmpty then .error "Missing or empty split result."
  else
    let output := (List.range bands).foldl
      (fun d i => setKey d (rangeKey edges i) []) []
    let output := chunk_list.foldl
      (fun d c =>
        match read (pathJoin out_path c) with
        | .error e => (List.range bands).foldl
            (fun d i => appendAt d (rangeKey edges i) (nullErrEntry fieldNames c e)) d
        | .ok data => (List.range bands).foldl
            (fun d i => appendAt d (rangeKey edges i) (bandEntry analyze c data i)) d)
      output
    .result output

/-- The entry `process` records for chunk `c` in band `i`. -/
def chunkEntry {Data : Type} (read : String → Except String Data)
    (analyze : Data → ℕ → Except String Entry) (out_path : String)
    (c : String) (i : ℕ) : Entry :=
  match read (pathJoin out_path c) with
  | .error e => nullErrEntry fieldNames c e
  | .ok data => bandEntry analyze c data i

theorem quantization_process_char {Data : Type} (read : String → Except String Data)
    (analyze : Data → ℕ → Except String Entry)
    (edges : ℕ → ℚ) (bands : ℕ) (out_path : String) (cs : List String)
    (hinj : ∀ i ∈ List.range bands, ∀ j ∈ List.range bands,
      rangeKey edges i = rangeKey edges j → i = j)
    (hcs : cs ≠ []) :
    process read analyze edges bands out_path (some cs) =
      .result ((List.range bands).map (fun i =>
        (rangeKey edges i, cs.map (fun c => chunkEntry read analyze out_path c i)))) := by
  unfold process
  rw [show (some cs).getD [] = cs from rfl]
  rw [if_neg (by simpa using hcs)]
  rw [initFold (List.range bands) (rangeKey edges) (fun _ => ([] : List Entry)) []
        (List.nodup_range bands) hinj (fun i _ => rfl)]
  simp only [List.nil_append]
  have hstep :
      (fun (d : Doc (List Entry)) (c : String) =>
        match read (pathJoin out_path c) with
        | .error e => (List.range bands).foldl
            (fun d i => appendAt d (rangeKey edges i) (nullErrEntry fieldNames c e)) d
        | .ok data => (List.range bands).foldl
            (fun d i => appendAt d (rangeKey edges i) (bandEntry analyze c data i)) d) =
      (fun (d : Doc (List Entry)) (c : String) =>
        (List.range bands).foldl
          (fun d i => appendAt d (rangeKey edges i) (chunkEntry read analyze out_path c i)) d) := by
    funext d c
    cases hread : read (pathJoin out_path c) with
    | error e => simp only [chunkEntry, hread]
    | ok data => simp only [chunkEntry, hread]
  rw [hstep]
  rw [chunkFold bands (rangeKey edges) (chunkEntry read analyze out_path) cs (fun _ => []) hinj]
  simp

end Quantization

/-! ### Band keys of the two sequential banded modules (claim C6 support) -/

theorem keysOf_bandAppendFold {α : Type} (L : List ℕ) (key : ℕ → String) (g : ℕ → α)
    (d : Doc (List α)) :
    keysOf (L.foldl (fun d i => appendAt d (key i) (g i)) d) = keysOf d :=
  keysOf_foldl _ L d (fun d i => keysOf_appendAt d (key i) (g i))

theorem Dynamics.dynamics_process_keys {Data : Type} (read : String → Except String Data)
    (analyze : Data → ℕ → Except String Entry)
    (edges : ℕ → ℚ) (bands : ℕ) (out_path : String) (cs : List String)
    (hcs : cs ≠ []) :
    ∃ d, Dynamics.process read analyze edges bands out_path (some cs) = .result d ∧
      keysOf d = keysOf ((List.range bands).foldl
        (fun d i => setKey d (Dynamics.rangeKey edges i) ([] : List Entry)) []) := by
  unfold Dynamics.process
  rw [show (some cs).getD [] = cs from rfl]
  rw [if_neg (by simpa using hcs)]
  refine ⟨_, rfl, ?_⟩
  apply keysOf_foldl
  intro d c
  cases read (pathJoin out_path c) with
  | error e => exact keysOf_bandAppendFold _ _ _ d
  | ok data => exact keysOf_bandAppendFold _ _ _ d

theorem Quantization.quantization_process_keys {Data : Type} (read : String → Except String Data)
    (analyze : Data → ℕ → Except String Entry)
    (edges : ℕ → ℚ) (bands : ℕ) (out_path : String) (cs : List String)
    (hcs : cs ≠ []) :
    ∃ d, Quantization.process read analyze edges bands out_path (some cs) = .result d ∧
      keysOf d = keysOf ((List.range bands).foldl
        (fun d i => setKey d (Quantization.rangeKey edges i) ([] : List Entry)) []) := by
  unfold Quantization.process
  rw [show (some cs).getD [] = cs from rfl]
  rw [if_neg (by simpa using hcs)]
  refine ⟨_, rfl, ?_⟩
  apply keysOf_foldl
  intro d c
  cases read (pathJoin out_path c) with
  | error e => exact keysOf_bandAppendFold _ _ _ d
  | ok data => exact keysOf_bandAppendFold _ _ _ d

/-- The two modules' independent copies of the band-key formatting code
produce the same function of the logspace edges. -/
theorem rangeKey_dyn_eq_quant : Dynamics.rangeKey = Quantization.rangeKey := rfl

/-! ### Fan-out module infrastructure -/

theorem chunk_parallel_process_eq {α Ctx : Type} [Inhabited α]
    (callback : ℕ → String → String → Ctx → α)
    (chunk_list : List String) (out_path : String) (context : Ctx)
    (max_workers : Option ℕ) (use_processes : Bool) (schedule : List ℕ)
    (hsch : schedule.Perm (List.range chunk_list.length)) :
    chunk_parallel_process callback chunk_list out_path context max_workers use_processes schedule =
      (List.range chunk_list.length).map
        (fun i => callback i (chunk_list.getD i "") (pathJoin out_path (chunk_list.getD i "")) context) := by
  unfold chunk_parallel_process
  apply List.map_congr_left
  intro i hi
  have hmem : i ∈ schedule := hsch.mem_iff.mpr hi
  rw [find?_map_pair schedule
        (fun j => callback j (chunk_list.getD j "") (pathJoin out_path (chunk_list.getD j "")) context)
        i hmem]

theorem range_map_getD {α β : Type} (cs : List α) (d : α) (F : α → β) :
    (List.range cs.length).map (fun i => F (cs.getD i d)) = cs.map F := by
  induction cs with
  | nil => simp
  | cons c cs ih =>
      rw [List.length_cons, List.range_succ_eq_map]
      simp only [List.map_cons, List.map_map]
      show F c :: (List.range cs.length).map (fun i => F (cs.getD i d)) = F c :: cs.map F
      rw [ih]

theorem foldl_congr_mem {α β : Type} (l : List β) (f g : α → β → α) (a : α)
    (h : ∀ x ∈ l, ∀ acc, f acc x = g acc x) : l.foldl f a = l.foldl g a := by
  induction l generalizing a with
  | nil => rfl
  | cons b l ih =>
      simp only [List.foldl_cons]
      rw [h b (by simp) a]
      exact ih _ (fun x hx acc => h x (List.mem_cons_of_mem _ hx) acc)

theorem keysOf_mapForm {ι α : Type} (M : List ι) (key : ι → String) (h : ι → α) :
    keysOf (M.map (fun i => (key i, h i))) = M.map key := by
  simp [keysOf, List.map_map]

/-- The result-distribution loop shared by all fan-out modules
(`for chunk_result in chunk_results: for range_key in output.keys(): if
range_key in chunk_result: output[range_key].append(...)`), characterised
when every per-chunk result dict has exactly the band keys. -/
theorem fanoutFold (bands : ℕ) (key : ℕ → String) (f : String → ℕ → Entry)
    (cs : List String) (h : ℕ → List Entry)
    (hinj : ∀ i ∈ List.range bands, ∀ j ∈ List.range bands, key i = key j → i = j) :
    (cs.map (fun c => (List.range bands).map (fun i => (key i, f c i)))).foldl
        (fun d cr => (keysOf d).foldl
          (fun d rk => match getKey cr rk with
            | some e => appendAt d rk e
            | none => d) d)
        ((List.range bands).map (fun i => (key i, h i))) =
      (List.range bands).map (fun i => (key i, h i ++ cs.map (fun c => f c i))) := by
  induction cs generalizing h with
  | nil => simp
  | cons c cs ih =>
      simp only [List.map_cons, List.foldl_cons]
      have hcong : ∀ i ∈ List.range bands, ∀ acc : Doc (List Entry),
          (match getKey ((List.range bands).map (fun j => (key j, f c j))) (key i) with
           | some e => appendAt acc (key i) e
           | none => acc) = appendAt acc (key i) (f c i) := by
        intro i hi acc
        rw [getKey_mapForm (List.range bands) key (f c) hinj i hi]
      have hpass :
          (keysOf ((List.range bands).map (fun i => (key i, h i)))).foldl
              (fun d rk =>
                match getKey ((List.range bands).map (fun j => (key j, f c j))) rk with
                | some e => appendAt d rk e
                | none => d)
              ((List.range bands).map (fun i => (key i, h i))) =
            (List.range bands).map (fun i => (key i, h i ++ [f c i])) := by
        rw [keysOf_mapForm]
        rw [List.foldl_map]
        rw [foldl_congr_mem (List.range bands)
              (fun acc i =>
                match getKey ((List.range bands).map (fun j => (key j, f c j))) (key i) with
                | some e => appendAt acc (key i) e
                | none => acc)
              (fun acc i => appendAt acc (key i) (f c i)) _ hcong]
        exact bandPass_range bands key (fun i => f c i) h hinj
      rw [hpass, ih (fun i => h i ++ [f c i])]
      simp

/-! ## `src/py/x2/stereo_correlation.py` (fan-out banded module) -/

namespace StereoCorrelation

def fieldNames : List String := ["correlation"]

/-- The module's own copy of `f"{int(f_low)}Hz-{int(f_high)}Hz"`. -/
def rangeKey (edges : ℕ → ℚ) (i : ℕ) : String :=
  toString (pyInt (edges i)) ++ "Hz-" ++ toString (pyInt (edges (i + 1))) ++ "Hz"

/-- `process_single_chunk` of `stereo_correlation.py` (lines 8-72): read
the chunk (an exception becomes all-band error entries), detect non-stereo
data (all-band "Not stereo" entries), otherwise bandpass + correlation per
band with per-band exception capture; the DSP body is the `analyze`
external. -/
def process_single_chunk {Data : Type} (read : String → Except String Data)
    (isStereo : Data → Bool) (analyze : Data → ℕ → Except String Entry)
    (edges : ℕ → ℚ) (bands : ℕ) (chunk_path chunk : String) : Doc Entry :=
  match read chunk_path with
  | .error e =>
      (List.range bands).foldl
        (fun r i => setKey r (rangeKey edges i) (nullErrEntry fieldNames chunk e)) []
  | .ok data =>
      if ¬ isStereo data then
        (List.range bands).foldl
          (fun r i => setKey r (rangeKey edges i) (nullErrEntry fieldNames chunk "Not stereo")) []
      else
        (List.range bands).foldl
          (fun r i => setKey r (rangeKey edges i)
            (match analyze data i with
             | .ok ent => ent
             | .error e => nullErrEntry fieldNames chunk e)) []

/-- `process` of `stereo_correlation.py` (lines 77-115): guard on the split
chunk list, fan the chunks out through the Parallel Work Splitter with the
`(log_edges, bands)` context, initialise the band-keyed output dict, and
distribute each per-chunk result dict into the per-band lists. -/
def process {Data : Type} (read : String → Except String Data)
    (isStereo : Data → Bool) (analyze : Data → ℕ → Except String Entry)
    (edges : ℕ → ℚ) (bands : ℕ) (out_path : String)
    (max_workers : Option ℕ) (schedule : List ℕ)
    (split_chunks : Option (List String)) : BandedOut :=
  let chunk_list := split_chunks.getD []
  if chunk_list.isEmpty then .error "Missing or empty split result."
  else
    let context := (edges, bands)
    let chunk_results := chunk_parallel_process
      (fun chunk_index chunk_filename chunk_path ctx =>
        process_single_chunk read isStereo analyze ctx.1 ctx.2 chunk_path chunk_filename)
      chunk_list out_path context max_workers false schedule
    let output := (List.range bands).foldl
      (fun d i => setKey d (rangeKey edges i) ([] : List Entry)) []
    let output := chunk_results.foldl
      (fun d cr => (keysOf d).foldl
        (fun d rk => match getKey cr rk with
          | some e => appendAt d rk e
          | none => d) d) output
    .result output

/-- The entry `process` ends up recording for chunk `c` in band `i`. -/
def chunkEntry {Data : Type} (read : String → Except String Data)
    (isStereo : Data → Bool) (analyze : Data → ℕ → Except String Entry)
    (out_path : String) (c : String) (i : ℕ) : Entry :=
  match read (pathJoin out_path c) with
  | .error e => nullErrEntry fieldNames c e
  | .ok data =>
      if ¬ isStereo data then nullErrEntry fieldNames c "Not stereo"
      else
        match analyze data i with
        | .ok ent => ent
        | .error e => nullErrEntry fieldNames c e

theorem stereo_correlation_single_chunk_mapForm {Data : Type} (read : String → Except String Data)
    (isStereo : Data → Bool) (analyze : Data → ℕ → Except String Entry)
    (edges : ℕ → ℚ) (bands : ℕ) (out_path c : String)
    (hinj : ∀ i ∈ List.range bands, ∀ j ∈ List.range bands,
      rangeKey edges i = rangeKey edges j → i = j) :
    process_single_chunk read isStereo analyze edges bands (pathJoin out_path c) c =
      (List.range bands).map (fun i =>
        (rangeKey edges i, chunkEntry read isStereo analyze out_path c i)) := by
  cases hread : read (pathJoin out_path c) with
  | error e =>
      simp only [process_single_chunk, chunkEntry, hread]
      rw [initFold (List.range bands) (rangeKey edges) _ []
            (List.nodup_range bands) hinj (fun i _ => rfl)]
      simp
  | ok data =>
      by_cases hst : isStereo data
      · simp only [process_single_chunk, chunkEntry, hread, hst, Bool.not_true,
          not_true_eq_false, if_false]
        rw [initFold (List.range bands) (rangeKey edges) _ []
              (List.nodup_range bands) hinj (fun i _ => rfl)]
        simp
      · simp only [Bool.not_eq_true] at hst
        simp only [process_single_chunk, chunkEntry, hread, hst, Bool.false_eq_true,
          not_false_eq_true, if_true]
        rw [initFold (List.range bands) (rangeKey edges) _ []
              (List.nodup_range bands) hinj (fun i _ => rfl)]
        simp

theorem stereo_correlation_process_some {Data : Type} (read : String → Except String Data)
    (isStereo : Data → Bool) (analyze : Data → ℕ → Except String Entry)
    (edges : ℕ → ℚ) (bands : ℕ) (out_path : String)
    (max_workers : Option ℕ) (schedule : List ℕ) (cs : List String)
    (hcs : cs ≠ []) :
    process read isStereo analyze edges bands out_path max_workers schedule (some cs) =
      .result ((chunk_parallel_process
          (fun chunk_index chunk_filename chunk_path (ctx : (ℕ → ℚ) × ℕ) =>
            process_single_chunk read isStereo analyze ctx.1 ctx.2 chunk_path chunk_filename)
          cs out_path (edges, bands) max_workers false schedule).foldl
        (fun d cr => (keysOf d).foldl
          (fun d rk => match getKey cr rk with
            | some e => appendAt d rk e
            | none => d) d)
        ((List.range bands).foldl
          (fun d i => setKey d (rangeKey edges i) ([] : List Entry)) [])) := by
  unfold process
  rw [show (some cs).getD [] = cs from rfl, if_neg (by simpa using hcs)]

theorem stereo_correlation_process_char {Data : Type} (read : String → Except String Data)
    (isStereo : Data → Bool) (analyze : Data → ℕ → Except String Entry)
    (edges : ℕ → ℚ) (bands : ℕ) (out_path : String)
    (max_workers : Option ℕ) (schedule : List ℕ) (cs : List String)
    (hinj : ∀ i ∈ List.range bands, ∀ j ∈ List.range bands,
      rangeKey edges i = rangeKey edges j → i = j)
    (hcs : cs ≠ []) (hsch : schedule.Perm (List.range cs.length)) :
    process read isStereo analyze edges bands out_path max_workers schedule (some cs) =
      .result ((List.range bands).map (fun i =>
        (rangeKey edges i, cs.map (fun c => chunkEntry read isStereo analyze out_path c i)))) := by
  rw [stereo_correlation_process_some read isStereo analyze edges bands out_path max_workers schedule cs hcs]
  rw [chunk_parallel_process_eq _ cs out_path (edges, bands) max_workers false schedule hsch]
  rw [show (fun i => (fun chunk_index chunk_filename chunk_path (ctx : (ℕ → ℚ) × ℕ) =>
        process_single_chunk read isStereo analyze ctx.1 ctx.2 chunk_path chunk_filename)
          i (cs.getD i "") (pathJoin out_path (cs.getD i "")) (edges, bands)) =
      (fun i => process_single_chunk read isStereo analyze edges bands
        (pathJoin out_path (cs.getD i "")) (cs.getD i "")) from rfl]
  rw [range_map_getD cs ""
        (fun c => process_single_chunk read isStereo analyze edges bands (pathJoin out_path c) c)]
  rw [List.map_congr_left (fun c _ =>
        stereo_correlation_single_chunk_mapForm read isStereo analyze edges bands out_path c hinj)]
  rw [initFold (List.range bands) (rangeKey edges) (fun _ => ([] : List Entry)) []
        (List.nodup_range bands) hinj (fun i _ => rfl)]
  simp only [List.nil_append]
  rw [fanoutFold bands (rangeKey edges)
        (fun c i => chunkEntry read isStereo analyze out_path c i) cs (fun _ => []) hinj]
  simp

end StereoCorrelation

/-! ## `src/py/x2/stereo_width.py` (fan-out banded module, same structure as
stereo_correlation with the width field set) -/

namespace StereoWidth

def fieldNames : List String :=
  ["mid_rms", "side_rms", "width_ratio", "presence", "quality"]

/-- The module's own copy of `f"{int(f_low)}Hz-{int(f_high)}Hz"`. -/
def rangeKey (edges : ℕ → ℚ) (i : ℕ) : String :=
  toString (pyInt (edges i)) ++ "Hz-" ++ toString (pyInt (edges (i + 1))) ++ "Hz"

/-- `process_single_chunk` of `stereo_width.py` (lines 14-118). -/
def process_single_chunk {Data : Type} (read : String → Except String Data)
    (isStereo : Data → Bool) (analyze : Data → ℕ → Except String Entry)
    (edges : ℕ → ℚ) (bands : ℕ) (chunk_path chunk : String) : Doc Entry :=
  match read chunk_path with
  | .error e =>
      (List.range bands).foldl
        (fun r i => setKey r (rangeKey edges i) (nullErrEntry fieldNames chunk e)) []
  | .ok data =>
      if ¬ isStereo data then
        (List.range bands).foldl
          (fun r i => setKey r (rangeKey edges i) (nullErrEntry fieldNames chunk "Not stereo")) []
      else
        (List.range bands).foldl
          (fun r i => setKey r (rangeKey edges i)
            (match analyze data i with
             | .ok ent => ent
             | .error e => nullErrEntry fieldNames chunk e)) []

/-- `process` of `stereo_width.py` (lines 123-161). -/
def process {Data : Type} (read : String → Except String Data)
    (isStereo : Data → Bool) (analyze : Data → ℕ → Except String Entry)
    (edges : ℕ → ℚ) (bands : ℕ) (out_path : String)
    (max_workers : Option ℕ) (schedule : List ℕ)
    (split_chunks : Option (List String)) : BandedOut :=
  let chunk_list := split_chunks.getD []
  if chunk_list.isEmpty then .error "Missing or empty split result."
  else
    let context := (edges, bands)
    let chunk_results := chunk_parallel_process
      (fun chunk_index chunk_filename chunk_path ctx =>
        process_single_chunk read isStereo analyze ctx.1 ctx.2 chunk_path chunk_filename)
      chunk_list out_path context max_workers false schedule
    let output := (List.range bands).foldl
      (fun d i => setKey d (rangeKey edges i) ([] : List Entry)) []
    let output := chunk_results.foldl
      (fun d cr => (keysOf d).foldl
        (fun d rk => match getKey cr rk with
          | some e => appendAt d rk e
          | none => d) d) output
    .result output

/-- The entry `process` ends up recording for chunk `c` in band `i`. -/
def chunkEntry {Data : Type} (read : String → Except String Data)
    (isStereo : Data → Bool) (analyze : Data → ℕ → Except String Entry)
    (out_path : String) (c : String) (i : ℕ) : Entry :=
  match read (pathJoin out_path c) with
  | .error e => nullErrEntry fieldNames c e
  | .ok data =>
      if ¬ isStereo data then nullErrEntry fieldNames c "Not stereo"
      else
        match analyze data i with
        | .ok ent => ent
        | .error e => nullErrEntry fieldNames c e

theorem stereo_width_single_chunk_mapForm {Data : Type} (read : String → Except String Data)
    (isStereo : Data → Bool) (analyze : Data → ℕ → Except String Entry)
    (edges : ℕ → ℚ) (bands : ℕ) (out_path c : String)
    (hinj : ∀ i ∈ List.range bands, ∀ j ∈ List.range bands,
      rangeKey edges i = rangeKey edges j → i = j) :
    process_single_chunk read isStereo analyze edges bands (pathJoin out_path c) c =
      (List.range bands).map (fun i =>
        (rangeKey edges i, chunkEntry read isStereo analyze out_path c i)) := by
  cases hread : read (pathJoin out_path c) with
  | error e =>
      simp only [process_single_chunk, chunkEntry, hread]
      rw [initFold (List.range bands) (rangeKey edges) _ []
            (List.nodup_range bands) hinj (fun i _ => rfl)]
      simp
  | ok data =>
      by_cases hst : isStereo data
      · simp only [process_single_chunk, chunkEntry, hread, hst, Bool.not_true,
          not_true_eq_false, if_false]
        rw [initFold (List.range bands) (rangeKey edges) _ []
              (List.nodup_range bands) hinj (fun i _ => rfl)]
        simp
      · simp only [Bool.not_eq_true] at hst
        simp only [process_single_chunk, chunkEntry, hread, hst, Bool.false_eq_true,
          not_false_eq_true, if_true]
        rw [initFold (List.range bands) (rangeKey edges) _ []
              (List.nodup_range bands) hinj (fun i _ => rfl)]
        simp

theorem stereo_width_process_some {Data : Type} (read : String → Except String Data)
    (isStereo : Data → Bool) (analyze : Data → ℕ → Except String Entry)
    (edges : ℕ → ℚ) (bands : ℕ) (out_path : String)
    (max_workers : Option ℕ) (schedule : List ℕ) (cs : List String)
    (hcs : cs ≠ []) :
    process read isStereo analyze edges bands out_path max_workers schedule (some cs) =
      .result ((chunk_parallel_process
          (fun chunk_index chunk_filename chunk_path (ctx : (ℕ → ℚ) × ℕ) =>
            process_single_chunk read isStereo analyze ctx.1 ctx.2 chunk_path chunk_filename)
          cs out_path (edges, bands) max_workers false schedule).foldl
        (fun d cr => (keysOf d).foldl
          (fun d rk => match getKey cr rk with
            | some e => appendAt d rk e
            | none => d) d)
        ((List.range bands).foldl
          (fun d i => setKey d (rangeKey edges i) ([] : List Entry)) [])) := by
  unfold process
  rw [show (some cs).getD [] = cs from rfl, if_neg (by simpa using hcs)]

theorem stereo_width_process_char {Data : Type} (read : String → Except String Data)
    (isStereo : Data → Bool) (analyze : Data → ℕ → Except String Entry)
    (edges : ℕ → ℚ) (bands : ℕ) (out_path : String)
    (max_workers : Option ℕ) (schedule : List ℕ) (cs : List String)
    (hinj : ∀ i ∈ List.range bands, ∀ j ∈ List.range bands,
      rangeKey edges i = rangeKey edges j → i = j)
    (hcs : cs ≠ []) (hsch : schedule.Perm (List.range cs.length)) :
    process read isStereo analyze edges bands out_path max_workers schedule (some cs) =
      .result ((List.range bands).map (fun i =>
        (rangeKey edges i, cs.map (fun c => chunkEntry read isStereo analyze out_path c i)))) := by
  rw [stereo_width_process_some read isStereo analyze edges bands out_path max_workers schedule cs hcs]
  rw [chunk_parallel_process_eq _ cs out_path (edges, bands) max_workers false schedule hsch]
  rw [show (fun i => (fun chunk_index chunk_filename chunk_path (ctx : (ℕ → ℚ) × ℕ) =>
        process_single_chunk read isStereo analyze ctx.1 ctx.2 chunk_path chunk_filename)
          i (cs.getD i "") (pathJoin out_path (cs.getD i "")) (edges, bands)) =
      (fun i => process_single_chunk read isStereo analyze edges bands
        (pathJoin out_path (cs.getD i "")) (cs.getD i "")) from rfl]
  rw [range_map_getD cs ""
        (fun c => process_single_chunk read isStereo analyze edges bands (pathJoin out_path c) c)]
  rw [List.map_congr_left (fun c _ =>
        stereo_width_single_chunk_mapForm read isStereo analyze edges bands out_path c hinj)]
  rw [initFold (List.range bands) (rangeKey edges) (fun _ => ([] : List Entry)) []
        (List.nodup_range bands) hinj (fun i _ => rfl)]
  simp only [List.nil_append]
  rw [fanoutFold bands (rangeKey edges)
        (fun c i => chunkEntry read isStereo analyze out_path c i) cs (fun _ => []) hinj]
  simp

end StereoWidth

/-! ## `src/py/x2/sparkle.py` (fan-out banded module; mono conversion, no
stereo check) -/

namespace Sparkle

def fieldNames : List String := ["sparkle"]

/-- The module's own copy of `f"{int(f_low)}Hz-{int(f_high)}Hz"`. -/
def rangeKey (edges : ℕ → ℚ) (i : ℕ) : String :=
  toString (pyInt (edges i)) ++ "Hz-" ++ toString (pyInt (edges (i + 1))) ++ "Hz"

/-- `process_single_chunk` of `sparkle.py` (lines 18-84): read + mono
conversion + frame-size computation in one try (failure fans error entries
to all bands), then per band the sparkle computation with per-band
exception capture. -/
def process_single_chunk {Data : Type} (read : String → Except String Data)
    (analyze : Data → ℕ → Except String Entry)
    (edges : ℕ → ℚ) (bands : ℕ) (chunk_path chunk : String) : Doc Entry :=
  match read chunk_path with
  | .error e =>
      (List.range bands).foldl
        (fun r i => setKey r (rangeKey edges i) (nullErrEntry fieldNames chunk e)) []
  | .ok data =>
      (List.range bands).foldl
        (fun r i => setKey r (rangeKey edges i)
          (match analyze data i with
           | .ok ent => ent
           | .error e => nullErrEntry fieldNames chunk e)) []

/-- `process` of `sparkle.py` (lines 90-136). -/
def process {Data : Type} (read : String → Except String Data)
    (analyze : Data → ℕ → Except String Entry)
    (edges : ℕ → ℚ) (bands : ℕ) (out_path : String)
    (max_workers : Option ℕ) (schedule : List ℕ)
    (split_chunks : Option (List String)) : BandedOut :=
  let chunk_list := split_chunks.getD []
  if chunk_list.isEmpty then .error "Missing or empty split result."
  else
    let context := (edges, bands)
    let chunk_results := chunk_parallel_process
      (fun chunk_index chunk_filename chunk_path ctx =>
        process_single_chunk read analyze ctx.1 ctx.2 chunk_path chunk_filename)
      chunk_list out_path context max_workers false schedule
    let output := (List.range bands).foldl
      (fun d i => setKey d (rangeKey edges i) ([] : List Entry)) []
    let output := chunk_results.foldl
      (fun d cr => (keysOf d).foldl
        (fun d rk => match getKey cr rk with
          | some e => appendAt d rk e
          | none => d) d) output
    .result output

/-- The entry `process` ends up recording for chunk `c` in band `i`. -/
def chunkEntry {Data : Type} (read : String → Except String Data)
    (analyze : Data → ℕ → Except String Entry)
    (out_path : String) (c : String) (i : ℕ) : Entry :=
  match read (pathJoin out_path c) with
  | .error e => nullErrEntry fieldNames c e
  | .ok data =>
      match analyze data i with
      | .ok ent => ent
      | .error e => nullErrEntry fieldNames c e

theorem sparkle_single_chunk_mapForm {Data : Type} (read : String → Except String Data)
    (analyze : Data → ℕ → Except String Entry)
    (edges : ℕ → ℚ) (bands : ℕ) (out_path c : String)
    (hinj : ∀ i ∈ List.range bands, ∀ j ∈ List.range bands,
      rangeKey edges i = rangeKey edges j → i = j) :
    process_single_chunk read analyze edges bands (pathJoin out_path c) c =
      (List.range bands).map (fun i =>
        (rangeKey edges i, chunkEntry read analyze out_path c i)) := by
  cases hread : read (pathJoin out_path c) with
  | error e =>
      simp only [process_single_chunk, chunkEntry, hread]
      rw [initFold (List.range bands) (rangeKey edges) _ []
            (List.nodup_range bands) hinj (fun i _ => rfl)]
      simp
  | ok data =>
      simp only [process_single_chunk, chunkEntry, hread]
      rw [initFold (List.range bands) (rangeKey edges) _ []
            (List.nodup_range bands) hinj (fun i _ => rfl)]
      simp

theorem sparkle_process_some {Data : Type} (read : String → Except String Data)
    (analyze : Data → ℕ → Except String Entry)
    (edges : ℕ → ℚ) (bands : ℕ) (out_path : String)
    (max_workers : Option ℕ) (schedule : List ℕ) (cs : List String)
    (hcs : cs ≠ []) :
    process read analyze edges bands out_path max_workers schedule (some cs) =
      .result ((chunk_parallel_process
          (fun chunk_index chunk_filename chunk_path (ctx : (ℕ → ℚ) × ℕ) =>
            process_single_chunk read analyze ctx.1 ctx.2 chunk_path chunk_filename)
          cs out_path (edges, bands) max_workers false schedule).foldl
        (fun d cr => (keysOf d).foldl
          (fun d rk => match getKey cr rk with
            | some e => appendAt d rk e
            | none => d) d)
        ((List.range bands).foldl
          (fun d i => setKey d (rangeKey edges i) ([] : List Entry)) [])) := by
  unfold process
  rw [show (some cs).getD [] = cs from rfl, if_neg (by simpa using hcs)]

theorem sparkle_process_char {Data : Type} (read : String → Except String Data)
    (analyze : Data → ℕ → Except String Entry)
    (edges : ℕ → ℚ) (bands : ℕ) (out_path : String)
    (max_workers : Option ℕ) (schedule : List ℕ) (cs : List String)
    (hinj : ∀ i ∈ List.range bands, ∀ j ∈ List.range bands,
      rangeKey edges i = rangeKey edges j → i = j)
    (hcs : cs ≠ []) (hsch : schedule.Perm (List.range cs.length)) :
    process read analyze edges bands out_path max_workers schedule (some cs) =
      .result ((List.range bands).map (fun i =>
        (rangeKey edges i, cs.map (fun c => chunkEntry read analyze out_path c i)))) := by
  rw [sparkle_process_some read analyze edges bands out_path max_workers schedule cs hcs]
  rw [chunk_parallel_process_eq _ cs out_path (edges, bands) max_workers false schedule hsch]
  rw [show (fun i => (fun chunk_index chunk_filename chunk_path (ctx : (ℕ → ℚ) × ℕ) =>
        process_single_chunk read analyze ctx.1 ctx.2 chunk_path chunk_filename)
          i (cs.getD i "") (pathJoin out_path (cs.getD i "")) (edges, bands)) =
      (fun i => process_single_chunk read analyze edges bands
        (pathJoin out_path (cs.getD i "")) (cs.getD i "")) from rfl]
  rw [range_map_getD cs ""
        (fun c => process_single_chunk read analyze edges bands (pathJoin out_path c) c)]
  rw [List.map_congr_left (fun c _ =>
        sparkle_single_chunk_mapForm read analyze edges bands out_path c hinj)]
  rw [initFold (List.range bands) (rangeKey edges) (fun _ => ([] : List Entry)) []
        (List.nodup_range bands) hinj (fun i _ => rfl)]
  simp only [List.nil_append]
  rw [fanoutFold bands (rangeKey edges)
        (fun c i => chunkEntry read analyze out_path c i) cs (fun _ => []) hinj]
  simp

end Sparkle

/-! ## `src/py/x2/harmonics.py` (fan-out banded module; mono conversion, no
stereo check, same single-chunk structure as sparkle with the harmonics
field set) -/

namespace Harmonics

def fieldNames : List String :=
  ["spectral_centroid_fraction", "spectral_rolloff_fraction"]

/-- The module's own copy of `f"{int(f_low)}Hz-{int(f_high)}Hz"`. -/
def rangeKey (edges : ℕ → ℚ) (i : ℕ) : String :=
  toString (pyInt (edges i)) ++ "Hz-" ++ toString (pyInt (edges (i + 1))) ++ "Hz"

/-- `process_single_chunk` of `harmonics.py` (lines 86-130). -/
def process_single_chunk {Data : Type} (read : String → Except String Data)
    (analyze : Data → ℕ → Except String Entry)
    (edges : ℕ → ℚ) (bands : ℕ) (chunk_path chunk : String) : Doc Entry :=
  match read chunk_path with
  | .error e =>
      (List.range bands).foldl
        (fun r i => setKey r (rangeKey edges i) (nullErrEntry fieldNames chunk e)) []
  | .ok data =>
      (List.range bands).foldl
        (fun r i => setKey r (rangeKey edges i)
          (match analyze data i with
           | .ok ent => ent
           | .error e => nullErrEntry fieldNames chunk e)) []

/-- `process` of `harmonics.py` (lines 135-178); this module runs its
fan-out with `use_processes=True`. -/
def process {Data : Type} (read : String → Except String Data)
    (analyze : Data → ℕ → Except String Entry)
    (edges : ℕ → ℚ) (bands : ℕ) (out_path : String)
    (max_workers : Option ℕ) (schedule : List ℕ)
    (split_chunks : Option (List String)) : BandedOut :=
  let chunk_list := split_chunks.getD []
  if chunk_list.isEmpty then .error "Missing or empty split result."
  else
    let context := (edges, bands)
    let chunk_results := chunk_parallel_process
      (fun chunk_index chunk_filename chunk_path ctx =>
        process_single_chunk read analyze ctx.1 ctx.2 chunk_path chunk_filename)
      chunk_list out_path context max_workers true schedule
    let output := (List.range bands).foldl
      (fun d i => setKey d (rangeKey edges i) ([] : List Entry)) []
    let output := chunk_results.foldl
      (fun d cr => (keysOf d).foldl
        (fun d rk => match getKey cr rk with
          | some e => appendAt d rk e
          | none => d) d) output
    .result output

/-- The entry `process` ends up recording for chunk `c` in band `i`. -/
def chunkEntry {Data : Type} (read : String → Except String Data)
    (analyze : Data → ℕ → Except String Entry)
    (out_path : String) (c : String) (i : ℕ) : Entry :=
  match read (pathJoin out_path c) with
  | .error e => nullErrEntry fieldNames c e
  | .ok data =>
      match analyze data i with
      | .ok ent => ent
      | .error e => nullErrEntry fieldNames c e

theorem harmonics_single_chunk_mapForm {Data : Type} (read : String → Except String Data)
    (analyze : Data → ℕ → Except String Entry)
    (edges : ℕ → ℚ) (bands : ℕ) (out_path c : String)
    (hinj : ∀ i ∈ List.range bands, ∀ j ∈ List.range bands,
      rangeKey edges i = rangeKey edges j → i = j) :
    process_single_chunk read analyze edges bands (pathJoin out_path c) c =
      (List.range bands).map (fun i =>
        (rangeKey edges i, chunkEntry read analyze out_path c i)) := by
  cases hread : read (pathJoin out_path c) with
  | error e =>
      simp only [process_single_chunk, chunkEntry, hread]
      rw [initFold (List.range bands) (rangeKey edges) _ []
            (List.nodup_range bands) hinj (fun i _ => rfl)]
      simp
  | ok data =>
      simp only [process_single_chunk, chunkEntry, hread]
      rw [initFold (List.range bands) (rangeKey edges) _ []
            (List.nodup_range bands) hinj (fun i _ => rfl)]
      simp

theorem harmonics_process_some {Data : Type} (read : String → Except String Data)
    (analyze : Data → ℕ → Except String Entry)
    (edges : ℕ → ℚ) (bands : ℕ) (out_path : String)
    (max_workers : Option ℕ) (schedule : List ℕ) (cs : List String)
    (hcs : cs ≠ []) :
    process read analyze edges bands out_path max_workers schedule (some cs) =
      .result ((chunk_parallel_process
          (fun chunk_index chunk_filename chunk_path (ctx : (ℕ → ℚ) × ℕ) =>
            process_single_chunk read analyze ctx.1 ctx.2 chunk_path chunk_filename)
          cs out_path (edges, bands) max_workers true schedule).foldl
        (fun d cr => (keysOf d).foldl
          (fun d rk => match getKey cr rk with
            | some e => appendAt d rk e
            | none => d) d)
        ((List.range bands).foldl
          (fun d i => setKey d (rangeKey edges i) ([] : List Entry)) [])) := by
  unfold process
  rw [show (some cs).getD [] = cs from rfl, if_neg (by simpa using hcs)]

theorem harmonics_process_char {Data : Type} (read : String → Except String Data)
    (analyze : Data → ℕ → Except String Entry)
    (edges : ℕ → ℚ) (bands : ℕ) (out_path : String)
    (max_workers : Option ℕ) (schedule : List ℕ) (cs : List String)
    (hinj : ∀ i ∈ List.range bands, ∀ j ∈ List.range bands,
      rangeKey edges i = rangeKey edges j → i = j)
    (hcs : cs ≠ []) (hsch : schedule.Perm (List.range cs.length)) :
    process read analyze edges bands out_path max_workers schedule (some cs) =
      .result ((List.range bands).map (fun i =>
        (rangeKey edges i, cs.map (fun c => chunkEntry read analyze out_path c i)))) := by
  rw [harmonics_process_some read analyze edges bands out_path max_workers schedule cs hcs]
  rw [chunk_parallel_process_eq _ cs out_path (edges, bands) max_workers true schedule hsch]
  rw [show (fun i => (fun chunk_index chunk_filename chunk_path (ctx : (ℕ → ℚ) × ℕ) =>
        process_single_chunk read analyze ctx.1 ctx.2 chunk_path chunk_filename)
          i (cs.getD i "") (pathJoin out_path (cs.getD i "")) (edges, bands)) =
      (fun i => process_single_chunk read analyze edges bands
        (pathJoin out_path (cs.getD i "")) (cs.getD i "")) from rfl]
  rw [range_map_getD cs ""
        (fun c => process_single_chunk read analyze edges bands (pathJoin out_path c) c)]
  rw [List.map_congr_left (fun c _ =>
        harmonics_single_chunk_mapForm read analyze edges bands out_path c hinj)]
  rw [initFold (List.range bands) (rangeKey edges) (fun _ => ([] : List Entry)) []
        (List.nodup_range bands) hinj (fun i _ => rfl)]
  simp only [List.nil_append]
  rw [fanoutFold bands (rangeKey edges)
        (fun c i => chunkEntry read analyze out_path c i) cs (fun _ => []) hinj]
  simp

end Harmonics

/-! ## `src/py/x2/freq_response.py` (fan-out banded module; the whole
single-chunk body sits in one try block, with an explicit empty-frames
branch) -/

namespace FreqResponse

def fieldNames : List String := ["avg_magnitude_db"]

/-- The module's own copy of `f"{int(f_low)}Hz-{int(f_high)}Hz"`. -/
def rangeKey (edges : ℕ → ℚ) (i : ℕ) : String :=
  toString (pyInt (edges i)) ++ "Hz-" ++ toString (pyInt (edges (i + 1))) ++ "Hz"

/-- `process_single_chunk` of `freq_response.py` (lines 6-97): everything is
inside one try; a read failure or any exception in the band loop fans error
entries to all bands, an empty FFT frame list gives "No frames processed"
entries, and otherwise the per-band balance computation (`analyze`, an
all-or-nothing external since an exception discards the partial dict)
fills every band. -/
def process_single_chunk {Data : Type} (read : String → Except String Data)
    (framesEmpty : Data → Bool) (analyze : Data → Except String (ℕ → Entry))
    (edges : ℕ → ℚ) (bands : ℕ) (chunk_path chunk : String) : Doc Entry :=
  match read chunk_path with
  | .error e =>
      (List.range bands).foldl
        (fun r i => setKey r (rangeKey edges i) (nullErrEntry fieldNames chunk e)) []
  | .ok data =>
      if framesEmpty data then
        (List.range bands).foldl
          (fun r i => setKey r (rangeKey edges i)
            (nullErrEntry fieldNames chunk "No frames processed")) []
      else
        match analyze data with
        | .ok f =>
            (List.range bands).foldl
              (fun r i => setKey r (rangeKey edges i) (f i)) []
        | .error e =>
            (List.range bands).foldl
              (fun r i => setKey r (rangeKey edges i) (nullErrEntry fieldNames chunk e)) []

/-- `process` of `freq_response.py` (lines 103-151). -/
def process {Data : Type} (read : String → Except String Data)
    (framesEmpty : Data → Bool) (analyze : Data → Except String (ℕ → Entry))
    (edges : ℕ → ℚ) (bands : ℕ) (out_path : String)
    (max_workers : Option ℕ) (schedule : List ℕ)
    (split_chunks : Option (List String)) : BandedOut :=
  let chunk_list := split_chunks.getD []
  if chunk_list.isEmpty then .error "Missing or empty split result."
  else
    let context := (edges, bands)
    let chunk_results := chunk_parallel_process
      (fun chunk_index chunk_filename chunk_path ctx =>
        process_single_chunk read framesEmpty analyze ctx.1 ctx.2 chunk_path chunk_filename)
      chunk_list out_path context max_workers false schedule
    let output := (List.range bands).foldl
      (fun d i => setKey d (rangeKey edges i) ([] : List Entry)) []
    let output := chunk_results.foldl
      (fun d cr => (keysOf d).foldl
        (fun d rk => match getKey cr rk with
          | some e => appendAt d rk e
          | none => d) d) output
    .result output

/-- The entry `process` ends up recording for chunk `c` in band `i`. -/
def chunkEntry {Data : Type} (read : String → Except String Data)
    (framesEmpty : Data → Bool) (analyze : Data → Except String (ℕ → Entry))
    (out_path : String) (c : String) (i : ℕ) : Entry :=
  match read (pathJoin out_path c) with
  | .error e => nullErrEntry fieldNames c e
  | .ok data =>
      if framesEmpty data then nullErrEntry fieldNames c "No frames processed"
      else
        match analyze data with
        | .ok f => f i
        | .error e => nullErrEntry fieldNames c e

theorem freq_response_single_chunk_mapForm {Data : Type} (read : String → Except String Data)
    (framesEmpty : Data → Bool) (analyze : Data → Except String (ℕ → Entry))
    (edges : ℕ → ℚ) (bands : ℕ) (out_path c : String)
    (hinj : ∀ i ∈ List.range bands, ∀ j ∈ List.range bands,
      rangeKey edges i = rangeKey edges j → i = j) :
    process_single_chunk read framesEmpty analyze edges bands (pathJoin out_path c) c =
      (List.range bands).map (fun i =>
        (rangeKey edges i, chunkEntry read framesEmpty analyze out_path c i)) := by
  cases hread : read (pathJoin out_path c) with
  | error e =>
      simp only [process_single_chunk, chunkEntry, hread]
      rw [initFold (List.range bands) (rangeKey edges) _ []
            (List.nodup_range bands) hinj (fun i _ => rfl)]
      simp
  | ok data =>
      by_cases hfe : framesEmpty data
      · simp only [process_single_chunk, chunkEntry, hread, hfe, if_true]
        rw [initFold (List.range bands) (rangeKey edges) _ []
              (List.nodup_range bands) hinj (fun i _ => rfl)]
        simp
      · simp only [Bool.not_eq_true] at hfe
        cases hana : analyze data with
        | ok f =>
            simp only [process_single_chunk, chunkEntry, hread, hfe, Bool.false_eq_true,
              if_false, hana]
            rw [initFold (List.range bands) (rangeKey edges) _ []
                  (List.nodup_range bands) hinj (fun i _ => rfl)]
            simp
        | error e =>
            simp only [process_single_chunk, chunkEntry, hread, hfe, Bool.false_eq_true,
              if_false, hana]
            rw [initFold (List.range bands) (rangeKey edges) _ []
                  (List.nodup_range bands) hinj (fun i _ => rfl)]
            simp

theorem freq_response_process_some {Data : Type} (read : String → Except String Data)
    (framesEmpty : Data → Bool) (analyze : Data → Except String (ℕ → Entry))
    (edges : ℕ → ℚ) (bands : ℕ) (out_path : String)
    (max_workers : Option ℕ) (schedule : List ℕ) (cs : List String)
    (hcs : cs ≠ []) :
    process read framesEmpty analyze edges bands out_path max_workers schedule (some cs) =
      .result ((chunk_parallel_process
          (fun chunk_index chunk_filename chunk_path (ctx : (ℕ → ℚ) × ℕ) =>
            process_single_chunk read framesEmpty analyze ctx.1 ctx.2 chunk_path chunk_filename)
          cs out_path (edges, bands) max_workers false schedule).foldl
        (fun d cr => (keysOf d).foldl
          (fun d rk => match getKey cr rk with
            | some e => appendAt d rk e
            | none => d) d)
        ((List.range bands).foldl
          (fun d i => setKey d (rangeKey edges i) ([] : List Entry)) [])) := by
  unfold process
  rw [show (some cs).getD [] = cs from rfl, if_neg (by simpa using hcs)]

theorem freq_response_process_char {Data : Type} (read : String → Except String Data)
    (framesEmpty : Data → Bool) (analyze : Data → Except String (ℕ → Entry))
    (edges : ℕ → ℚ) (bands : ℕ) (out_path : String)
    (max_workers : Option ℕ) (schedule : List ℕ) (cs : List String)
    (hinj : ∀ i ∈ List.range bands, ∀ j ∈ List.range bands,
      rangeKey edges i = rangeKey edges j → i = j)
    (hcs : cs ≠ []) (hsch : schedule.Perm (List.range cs.length)) :
    process read framesEmpty analyze edges bands out_path max_workers schedule (some cs) =
      .result ((List.range bands).map (fun i =>
        (rangeKey edges i, cs.map (fun c => chunkEntry read framesEmpty analyze out_path c i)))) := by
  rw [freq_response_process_some read framesEmpty analyze edges bands out_path max_workers schedule cs hcs]
  rw [chunk_parallel_process_eq _ cs out_path (edges, bands) max_workers false schedule hsch]
  rw [show (fun i => (fun chunk_index chunk_filename chunk_path (ctx : (ℕ → ℚ) × ℕ) =>
        process_single_chunk read framesEmpty analyze ctx.1 ctx.2 chunk_path chunk_filename)
          i (cs.getD i "") (pathJoin out_path (cs.getD i "")) (edges, bands)) =
      (fun i => process_single_chunk read framesEmpty analyze edges bands
        (pathJoin out_path (cs.getD i "")) (cs.getD i "")) from rfl]
  rw [range_map_getD cs ""
        (fun c => process_single_chunk read framesEmpty analyze edges bands (pathJoin out_path c) c)]
  rw [List.map_congr_left (fun c _ =>
        freq_response_single_chunk_mapForm read framesEmpty analyze edges bands out_path c hinj)]
  rw [initFold (List.range bands) (rangeKey edges) (fun _ => ([] : List Entry)) []
        (List.nodup_range bands) hinj (fun i _ => rfl)]
  simp only [List.nil_append]
  rw [fanoutFold bands (rangeKey edges)
        (fun c i => chunkEntry read framesEmpty analyze out_path c i) cs (fun _ => []) hinj]
  simp

end FreqResponse

/-! ## `src/py/x2/stereo_phase.py` (sequential banded module; per-chunk
stereo detection, progress printing omitted as pure console output) -/

namespace StereoPhase

def fieldNames : List String := ["coherence"]

/-- The module's own copy of `f"{int(f_low)}Hz-{int(f_high)}Hz"`. -/
def rangeKey (edges : ℕ → ℚ) (i : ℕ) : String :=
  toString (pyInt (edges i)) ++ "Hz-" ++ toString (pyInt (edges (i + 1))) ++ "Hz"

/-- Per-band entry for a successfully read stereo chunk (`bandpass` +
`calculate_phase_coherence` as the `analyze` external, per-band exceptions
caught, stereo_phase.py lines 179-208). -/
def bandEntry {Data : Type} (analyze : Data → ℕ → Except String Entry)
    (c : String) (data : Data) (i : ℕ) : Entry :=
  match analyze data i with
  | .ok ent => ent
  | .error e => nullErrEntry fieldNames c e

/-- `process` of `stereo_phase.py` (lines 87-238): guard, band-key
initialisation, then a sequential chunk loop in which a read failure or a
non-stereo chunk appends error entries to every band and otherwise each
band gets its coherence entry. -/
def process {Data : Type} (read : String → Except String Data)
    (isStereo : Data → Bool) (analyze : Data → ℕ → Except String Entry)
    (edges : ℕ → ℚ) (bands : ℕ) (out_path : String)
    (split_chunks : Option (List String)) : BandedOut :=
  let chunk_list := split_chunks.getD []
  if chunk_list.isEmpty then .error "Missing or empty split result."
  else
    let output := (List.range bands).foldl
      (fun d i => setKey d (rangeKey edges i) ([] : List Entry)) []
    let output := chunk_list.foldl
      (fun d c =>
        match read (pathJoin out_path c) with
        | .error e => (List.range bands).foldl
            (fun d i => appendAt d (rangeKey edges i) (nullErrEntry fieldNames c e)) d
        | .ok data =>
            if ¬ isStereo data then
              (List.range bands).foldl
                (fun d i => appendAt d (rangeKey edges i)
                  (nullErrEntry fieldNames c "Not stereo")) d
            else
              (List.range bands).foldl
                (fun d i => appendAt d (rangeKey edges i) (bandEntry analyze c data i)) d)
      output
    .result output

/-- The entry `process` records for chunk `c` in band `i`. -/
def chunkEntry {Data : Type} (read : String → Except String Data)
    (isStereo : Data → Bool) (analyze : Data → ℕ → Except String Entry)
    (out_path : String) (c : String) (i : ℕ) : Entry :=
  match read (pathJoin out_path c) with
  | .error e => nullErrEntry fieldNames c e
  | .ok data =>
      if ¬ isStereo data then nullErrEntry fieldNames c "Not stereo"
      else bandEntry analyze c data i

theorem stereo_phase_process_char {Data : Type} (read : String → Except String Data)
    (isStereo : Data → Bool) (analyze : Data → ℕ → Except String Entry)
    (edges : ℕ → ℚ) (bands : ℕ) (out_path : String) (cs : List String)
    (hinj : ∀ i ∈ List.range bands, ∀ j ∈ List.range bands,
      rangeKey edges i = rangeKey edges j → i = j)
    (hcs : cs ≠ []) :
    process read isStereo analyze edges bands out_path (some cs) =
      .result ((List.range bands).map (fun i =>
        (rangeKey edges i, cs.map (fun c => chunkEntry read isStereo analyze out_path c i)))) := by
  unfold process
  rw [show (some cs).getD [] = cs from rfl]
  rw [if_neg (by simpa using hcs)]
  rw [initFold (List.range bands) (rangeKey edges) (fun _ => ([] : List Entry)) []
        (List.nodup_range bands) hinj (fun i _ => rfl)]
  simp only [List.nil_append]
  have hstep :
      (fun (d : Doc (List Entry)) (c : String) =>
        match read (pathJoin out_path c) with
        | .error e => (List.range bands).foldl
            (fun d i => appendAt d (rangeKey edges i) (nullErrEntry fieldNames c e)) d
        | .ok data =>
            if ¬ isStereo data then
              (List.range bands).foldl
                (fun d i => appendAt d (rangeKey edges i)
                  (nullErrEntry fieldNames c "Not stereo")) d
            else
              (List.range bands).foldl
                (fun d i => appendAt d (rangeKey edges i) (bandEntry analyze c data i)) d) =
      (fun (d : Doc (List Entry)) (c : String) =>
        (List.range bands).foldl
          (fun d i => appendAt d (rangeKey edges i)
            (chunkEntry read isStereo analyze out_path c i)) d) := by
    funext d c
    cases hread : read (pathJoin out_path c) with
    | error e => simp only [chunkEntry, hread]
    | ok data =>
        by_cases hst : isStereo data
        · simp only [chunkEntry, hread, hst, Bool.not_true, not_true_eq_false, if_false]
        · simp only [Bool.not_eq_true] at hst
          simp only [chunkEntry, hread, hst, Bool.false_eq_true, not_false_eq_true, if_true]
  rw [hstep]
  rw [chunkFold bands (rangeKey edges) (chunkEntry read isStereo analyze out_path) cs
        (fun _ => []) hinj]
  simp

end StereoPhase

/-! ## `src/py/x2/dynamics_full_spectrum.py` (sequential flat module) -/

namespace DynamicsFullSpectrum

def fieldNames : List String :=
  ["peak_dbfs", "rms_dbfs", "crest_factor_db", "peak_dyn_range_db",
   "rms_dyn_range_db", "avg_crest_factor_db", "crest_factor_std_db"]

/-- `process` of `dynamics_full_spectrum.py` (lines 17-120): guard on the
split chunk list, then one entry per chunk; the whole per-chunk body
(read, mono conversion, frame metrics) sits in one try, an exception
producing a null-field error entry. -/
def process {Data : Type} (read : String → Except String Data)
    (analyze : Data → Except String Entry) (out_path : String)
    (split_chunks : Option (List String)) : FlatOut :=
  let chunk_list := split_chunks.getD []
  if chunk_list.isEmpty then .error "Missing or empty split result."
  else
    .result (chunk_list.foldl
      (fun results c =>
        match read (pathJoin out_path c) with
        | .error e => results ++ [nullErrEntry fieldNames c e]
        | .ok data =>
            match analyze data with
            | .ok ent => results ++ [ent]
            | .error e => results ++ [nullErrEntry fieldNames c e]) [])

end DynamicsFullSpectrum

/-! ## `src/py/x2/quantization_full_spectrum.py` (sequential flat module;
its except branch records only `{"chunk", "error"}`, no null fields) -/

namespace QuantizationFullSpectrum

/-- `process` of `quantization_full_spectrum.py` (lines 86-164); per-chunk
entries have channel-dependent keys (absorbed into `analyze`), and the
except branch appends a bare `{"chunk": ..., "error": str(e)}` entry. -/
def process {Data : Type} (read : String → Except String Data)
    (analyze : Data → Except String Entry) (out_path : String)
    (split_chunks : Option (List String)) : FlatOut :=
  let chunk_list := split_chunks.getD []
  if chunk_list.isEmpty then .error "Missing or empty split result."
  else
    .result (chunk_list.foldl
      (fun results c =>
        match read (pathJoin out_path c) with
        | .error e => results ++ [⟨c, [], some e⟩]
        | .ok data =>
            match analyze data with
            | .ok ent => results ++ [ent]
            | .error e => results ++ [⟨c, [], some e⟩]) [])

end QuantizationFullSpectrum

/-! ## `src/py/x2/harmonics_full_spectrum.py` (fan-out flat module) -/

namespace HarmonicsFullSpectrum

def fieldNames : List String :=
  ["overall_spectral_flatness_ratio", "std_overall_spectral_flatness_ratio"]

/-- `process_single_chunk` of `harmonics_full_spectrum.py` (lines 12-41). -/
def process_single_chunk {Data : Type} (read : String → Except String Data)
    (analyze : Data → Except String Entry) (chunk_path chunk : String) : Entry :=
  match read chunk_path with
  | .error e => nullErrEntry fieldNames chunk e
  | .ok data =>
      match analyze data with
      | .ok ent => ent
      | .error e => nullErrEntry fieldNames chunk e

/-- `process` of `harmonics_full_spectrum.py` (lines 46-66): guard, then
the chunk list fanned out through the Parallel Work Splitter; the returned
per-chunk list is the result as-is. -/
def process {Data : Type} (read : String → Except String Data)
    (analyze : Data → Except String Entry) (out_path : String)
    (max_workers : Option ℕ) (schedule : List ℕ)
    (split_chunks : Option (List String)) : FlatOut :=
  let chunk_list := split_chunks.getD []
  if chunk_list.isEmpty then .error "Missing or empty split result."
  else
    .result (chunk_parallel_process
      (fun chunk_index chunk_filename chunk_path (ctx : Unit) =>
        process_single_chunk read analyze chunk_path chunk_filename)
      chunk_list out_path () max_workers false schedule)

end HarmonicsFullSpectrum

/-! ## `src/py/main.py` — the Pipeline Driver

The driver never inspects a module result's structure, so the per-module
result type `R` stays abstract; a module is its `process` closure over the
accumulated results document (file path and config are fixed per track).
JSON (de)serialisation is external (`json.load`/`json.dump`), modelled by
`parseJson`/`dumpJson` parameters; a file is its raw string content. -/

namespace Driver

/-- `load_existing_results` (main.py lines 107-114): absent file or parse
failure (after a console warning) both give `{}`. -/
def load_existing_results {R : Type} (parseJson : String → Option (Doc R)) :
    Option String → Doc R
  | none => []
  | some s =>
      match parseJson s with
      | some d => d
      | none => []

/-- The fingerprint module-selection loop (main.py lines 175-178):
`if name not in fingerprint_result or name in ALWAYS_RUN`. -/
def modulesToRun {R : Type} (moduleNames : List String) (loaded : Doc R)
    (alwaysRun : List String) : List String :=
  moduleNames.filter (fun name => !containsKey loaded name || alwaysRun.contains name)

/-- The fingerprint execution loop (main.py lines 181-184):
`fingerprint_result[name] = module.process(..., fingerprint_result)`; the
lookup `MODULES_FINGERPRINT[name]` cannot fail for names produced by
`modulesToRun`, the `none` branch is dead code kept for totality. -/
def runModules {R : Type} (modules : List (String × (Doc R → R)))
    (toRun : List String) (d : Doc R) : Doc R :=
  toRun.foldl
    (fun doc name =>
      match getKey modules name with
      | some m => setKey doc name (m doc)
      | none => doc) d

/-- Per-track on-disk state: the fingerprint JSON file's content (if the
file exists) and the fulltrack JSON files' contents keyed by module name. -/
structure TrackState where
  fpContent : Option String
  ftContents : Doc String
deriving DecidableEq

/-- What one `process_file` call did: fingerprint modules executed (in
order), the in-memory fingerprint document after the phase, fulltrack
modules executed, and the resulting on-disk state. -/
structure RunOutcome (R : Type) where
  fpRan : List String
  fpDoc : Doc R
  ftRan : List String
  state : TrackState

/-- `load_all_fulltrack_results` (main.py lines 116-133): for each known
fulltrack module with an existing file, parse it and include it if truthy
(`ftParse` returns `none` both on a parse failure and on a falsy result). -/
def loadAllFulltrack {R : Type} (ftParse : String → Option R)
    (ftModules : List (String × (Doc R → R))) (ftFiles : Doc String) : Doc R :=
  ftModules.foldl
    (fun unified nm =>
      match getKey ftFiles nm.1 with
      | some content =>
          match ftParse content with
          | some r => setKey unified nm.1 r
          | none => unified
      | none => unified) []

/-- Python `dict.update`: `d.update(u)` writes every key of `u` into `d`. -/
def updateDoc {R : Type} (d u : Doc R) : Doc R :=
  u.foldl (fun d kv => setKey d kv.1 kv.2) d

/-- One iteration of the fulltrack loop (main.py lines 196-220): skip when
the module's file exists and it is not force-listed; otherwise re-load all
fulltrack results, combine them over a copy of the fingerprint document,
run the module and save its result to its own file. -/
def ftStep {R : Type} (ftParse : String → Option R) (ftDump : R → String)
    (ftModules : List (String × (Doc R → R))) (alwaysRun : List String)
    (fingerprint_result : Doc R)
    (acc : Doc String × List String) (nm : String × (Doc R → R)) :
    Doc String × List String :=
  if containsKey acc.1 nm.1 && !alwaysRun.contains nm.1 then acc
  else
    let unified := loadAllFulltrack ftParse ftModules acc.1
    let combined := updateDoc fingerprint_result unified
    let module_result := nm.2 combined
    (setKey acc.1 nm.1 (ftDump module_result), acc.2 ++ [nm.1])

/-- `process_file` (main.py lines 145-220), the per-track pipeline: load
the fingerprint document (corrupt file → skip the whole track untouched),
select and run the fingerprint modules, save the document if any module
ran, then run the fulltrack phase.  The media-copy step only touches the
`media/` directory and carries no result state. -/
def process_file {R : Type} (parseJson : String → Option (Doc R)) (dumpJson : Doc R → String)
    (ftParse : String → Option R) (ftDump : R → String)
    (fpModules ftModules : List (String × (Doc R → R)))
    (alwaysRun : List String) (st : TrackState) : RunOutcome R :=
  let fingerprint_result := load_existing_results parseJson st.fpContent
  if fingerprint_result.isEmpty && st.fpContent.isSome then
    ⟨[], fingerprint_result, [], st⟩
  else
    let toRun := modulesToRun (fpModules.map Prod.fst) fingerprint_result alwaysRun
    let fingerprint_result := runModules fpModules toRun fingerprint_result
    let fpContent := if toRun.isEmpty then st.fpContent else some (dumpJson fingerprint_result)
    let ftOut := ftModules.foldl
      (ftStep ftParse ftDump ftModules alwaysRun fingerprint_result) (st.ftContents, [])
    ⟨toRun, fingerprint_result, ftOut.2, ⟨fpContent, ftOut.1⟩⟩

/-! ### Driver lemmas -/

theorem getKey_runModules_not_mem {R : Type} (modules : List (String × (Doc R → R)))
    (l : List String) (d : Doc R) (name : String) (h : name ∉ l) :
    getKey (runModules modules l d) name = getKey d name := by
  induction l generalizing d with
  | nil => rfl
  | cons nm l ih =>
      have hne : nm ≠ name := fun hc => h (by simp [hc])
      have hl : name ∉ l := fun hc => h (List.mem_cons_of_mem _ hc)
      cases hm : getKey modules nm with
      | none =>
          simp only [runModules, List.foldl_cons, hm]
          exact ih d hl
      | some m =>
          simp only [runModules, List.foldl_cons, hm]
          calc getKey (List.foldl
                (fun doc name =>
                  match getKey modules name with
                  | some m => setKey doc name (m doc)
                  | none => doc) (setKey d nm (m d)) l) name
              = getKey (setKey d nm (m d)) name := ih _ hl
            _ = getKey d name := getKey_setKey_ne d nm name (m d) hne

theorem runModules_append {R : Type} (modules : List (String × (Doc R → R)))
    (l₁ l₂ : List String) (d : Doc R) :
    runModules modules (l₁ ++ l₂) d = runModules modules l₂ (runModules modules l₁ d) := by
  simp [runModules, List.foldl_append]

theorem containsKey_runModules_mono {R : Type} (modules : List (String × (Doc R → R)))
    (l : List String) (d : Doc R) (name : String) (h : containsKey d name = true) :
    containsKey (runModules modules l d) name = true := by
  induction l generalizing d with
  | nil => exact h
  | cons nm l ih =>
      cases hm : getKey modules nm with
      | none =>
          simp only [runModules, List.foldl_cons, hm]
          exact ih d h
      | some m =>
          simp only [runModules, List.foldl_cons, hm]
          exact ih _ (containsKey_setKey_mono d nm name (m d) h)

theorem containsKey_runModules_of_mem {R : Type} (modules : List (String × (Doc R → R)))
    (l : List String) (d : Doc R) (name : String) (hmem : name ∈ l)
    (hmod : (getKey modules name).isSome = true) :
    containsKey (runModules modules l d) name = true := by
  induction l generalizing d with
  | nil => simp at hmem
  | cons nm l ih =>
      by_cases hnm : nm = name
      · cases hm : getKey modules nm with
        | none =>
            rw [← hnm, hm] at hmod
            simp at hmod
        | some m =>
            simp only [runModules, List.foldl_cons, hm]
            by_cases hl : name ∈ l
            · exact ih _ hl
            · have hck : containsKey (setKey d nm (m d)) name = true := by
                rw [hnm]
                exact containsKey_setKey_self d name (m d)
              exact containsKey_runModules_mono modules l _ name hck
      · have hl : name ∈ l := by
          rcases List.mem_cons.mp hmem with h' | h'
          · exact absurd h'.symm hnm
          · exact h'
        cases hm : getKey modules nm with
        | none =>
            simp only [runModules, List.foldl_cons, hm]
            exact ih d hl
        | some m =>
            simp only [runModules, List.foldl_cons, hm]
            exact ih _ hl

end Driver

theorem containsKey_setKey_ne {α : Type} (d : Doc α) (k k' : String) (v : α) (h : k ≠ k') :
    containsKey (setKey d k v) k' = containsKey d k' := by
  simp [containsKey, getKey_setKey_ne d k k' v h]

theorem getKey_isSome_of_mem_keys {α : Type} (l : List (String × α)) (name : String)
    (h : name ∈ l.map Prod.fst) : (getKey l name).isSome = true := by
  induction l with
  | nil => simp at h
  | cons p l ih =>
      rw [List.map_cons] at h
      by_cases hp : p.1 = name
      · cases p
        simp only at hp
        simp [getKey, hp]
      · have hmem : name ∈ l.map Prod.fst := by
          rcases List.mem_cons.mp h with h' | h'
          · exact absurd h'.symm hp
          · exact h'
        cases p
        simp only at hp
        simpa [getKey, hp] using ih hmem

namespace Driver

theorem process_file_eq {R : Type} (parseJson : String → Option (Doc R))
    (dumpJson : Doc R → String) (ftParse : String → Option R) (ftDump : R → String)
    (fpModules ftModules : List (String × (Doc R → R)))
    (alwaysRun : List String) (st : TrackState)
    (hskip : ((load_existing_results parseJson st.fpContent).isEmpty && st.fpContent.isSome)
      = false) :
    process_file parseJson dumpJson ftParse ftDump fpModules ftModules alwaysRun st =
      ⟨modulesToRun (fpModules.map Prod.fst) (load_existing_results parseJson st.fpContent)
          alwaysRun,
        runModules fpModules
          (modulesToRun (fpModules.map Prod.fst) (load_existing_results parseJson st.fpContent)
            alwaysRun)
          (load_existing_results parseJson st.fpContent),
        (ftModules.foldl
          (ftStep ftParse ftDump ftModules alwaysRun
            (runModules fpModules
              (modulesToRun (fpModules.map Prod.fst)
                (load_existing_results parseJson st.fpContent) alwaysRun)
              (load_existing_results parseJson st.fpContent)))
          (st.ftContents, [])).2,
        ⟨if (modulesToRun (fpModules.map Prod.fst)
              (load_existing_results parseJson st.fpContent) alwaysRun).isEmpty
            then st.fpContent
            else some (dumpJson (runModules fpModules
              (modulesToRun (fpModules.map Prod.fst)
                (load_existing_results parseJson st.fpContent) alwaysRun)
              (load_existing_results parseJson st.fpContent))),
          (ftModules.foldl
            (ftStep ftParse ftDump ftModules alwaysRun
              (runModules fpModules
                (modulesToRun (fpModules.map Prod.fst)
                  (load_existing_results parseJson st.fpContent) alwaysRun)
                (load_existing_results parseJson st.fpContent)))
            (st.ftContents, [])).1⟩⟩ := by
  unfold process_file
  simp only [hskip, Bool.false_eq_true, if_false]

/-- The fulltrack selection (main.py lines 196-204) depends only on the
initial fulltrack files and ALWAYS_RUN when the module names are distinct:
earlier iterations write only their own files. -/
theorem ftFold_ran {R : Type} (ftParse : String → Option R) (ftDump : R → String)
    (ftModulesAll : List (String × (Doc R → R))) (alwaysRun : List String)
    (fingerprint_result : Doc R) (l : List (String × (Doc R → R)))
    (files : Doc String) (ran : List String)
    (hnd : (l.map Prod.fst).Nodup) :
    (l.foldl (ftStep ftParse ftDump ftModulesAll alwaysRun fingerprint_result) (files, ran)).2 =
      ran ++ (l.map Prod.fst).filter
        (fun n => !containsKey files n || alwaysRun.contains n) := by
  induction l generalizing files ran with
  | nil => simp
  | cons nm l ih =>
      rw [List.map_cons] at hnd
      rcases List.nodup_cons.mp hnd with ⟨hna, hndl⟩
      simp only [List.foldl_cons, List.map_cons, List.filter_cons]
      by_cases hskip : (containsKey files nm.1 && !alwaysRun.contains nm.1) = true
      · have hsk := hskip
        simp only [Bool.and_eq_true, Bool.not_eq_true'] at hsk
        have hnotmem : nm.1 ∉ alwaysRun := by simpa using hsk.2
        have hstep : ftStep ftParse ftDump ftModulesAll alwaysRun fingerprint_result
            (files, ran) nm = (files, ran) := by
          simp [ftStep, hsk.1, hnotmem]
        rw [hstep, ih files ran hndl]
        have hpred : (!containsKey files nm.1 || alwaysRun.contains nm.1) = false := by
          simp [hsk.1, hnotmem]
        rw [hpred]
        simp
      · have hstep : ftStep ftParse ftDump ftModulesAll alwaysRun fingerprint_result
            (files, ran) nm =
            (setKey files nm.1 (ftDump (nm.2 (updateDoc fingerprint_result
              (loadAllFulltrack ftParse ftModulesAll files)))), ran ++ [nm.1]) := by
          simp only [ftStep]
          rw [if_neg hskip]
        rw [hstep]
        rw [ih _ _ hndl]
        have hpred : (!containsKey files nm.1 || alwaysRun.contains nm.1) = true := by
          cases hc : containsKey files nm.1 with
          | false => simp
          | true =>
              cases ha : alwaysRun.contains nm.1 with
              | true => simp
              | false => exact absurd (by rw [hc, ha]; rfl) hskip
        rw [hpred]
        have hfilter : (l.map Prod.fst).filter
            (fun n => !containsKey (setKey files nm.1 (ftDump (nm.2 (updateDoc fingerprint_result
              (loadAllFulltrack ftParse ftModulesAll files))))) n || alwaysRun.contains n) =
            (l.map Prod.fst).filter
            (fun n => !containsKey files n || alwaysRun.contains n) := by
          apply List.filter_congr
          intro n hn
          have hne : nm.1 ≠ n := fun hc => hna (hc ▸ hn)
          rw [containsKey_setKey_ne files nm.1 n _ hne]
        rw [hfilter]
        simp

end Driver

/-! ## `src/py/x1/split.py` — the Chunker -/

namespace Split

/-- `parse_timespan` (split.py lines 5-17); `split_colon` models the
library call `timespan.strip().split(":")` and `toInt` models Python
`int(str)` including its raising behaviour on malformed input. -/
def parse_timespan (split_colon : String → List String)
    (toInt : String → Except String ℤ) (timespan : String) : Except String ℚ :=
  match split_colon timespan with
  | [s] => (toInt s).map (fun n => (n : ℚ))
  | [m, s] => do
      let mv ← toInt m
      let sv ← toInt s
      pure ((mv * 60 + sv : ℤ) : ℚ)
  | [h, m, s] => do
      let hv ← toInt h
      let mv ← toInt m
      let sv ← toInt s
      pure ((hv * 3600 + mv * 60 + sv : ℤ) : ℚ)
  | _ => .error ("Invalid timespan format: " ++ timespan)

/-- Python `f"{i:03d}"`: zero-pad to at least three digits. -/
def pad3 (i : ℕ) : String :=
  let s := toString i
  if s.length < 3 then String.mk (List.replicate (3 - s.length) '0') ++ s else s

/-- `new_filename = f"{src_filename}.{i:03d}.{src_ext}"` (split.py line 75). -/
def chunkName (src_filename src_ext : String) (i : ℕ) : String :=
  src_filename ++ "." ++ pad3 i ++ "." ++ src_ext

structure SplitResult where
  chunks : List String
  count : ℕ
  duration : ℚ
deriving DecidableEq

/-- `process` of `split.py` (lines 19-89).  Externals: `split_colon` and
`toInt` (string library / `int`), `relpath` (`os.path.relpath`), `pySort`
(the `sox_files.sort()` library call, line 70), `sox_path_ok`
(`os.path.isfile(sox_path)` together with the truthiness check),
`soxRun` (the subprocess call), `sox_files_glob` (the files sox produced,
as found by `glob`).  The stale-chunk deletion loop (lines 39-47) only
removes files and contributes nothing to the returned value.  The rename
loop (lines 72-83) renames the i-th sorted sox file to
`chunkName src_filename src_ext i` and records its path relative to
`out_path`. -/
def process (split_colon : String → List String) (toInt : String → Except String ℤ)
    (relpath : String → String → String) (pySort : List String → List String)
    (duration_str : String) (sox_path_ok : Bool) (soxRun : Except String Unit)
    (sox_files_glob : List String)
    (src_dir src_filename src_ext out_path : String) : Except String SplitResult :=
  match parse_timespan split_colon toInt duration_str with
  | .error e => .error ("Invalid duration format: " ++ e)
  | .ok chunk_length =>
      if ¬ sox_path_ok then .error "Missing or invalid split::sox_path"
      else
        match soxRun with
        | .error e => .error ("sox failed: " ++ e)
        | .ok _ =>
            let sox_files := pySort sox_files_glob
            let chunk_files := (sox_files.enum).foldl
              (fun acc p =>
                acc ++ [relpath (pathJoin src_dir (chunkName src_filename src_ext p.1)) out_path])
              []
            .ok ⟨chunk_files, chunk_files.length, chunk_length⟩

theorem foldl_append_eq_map {α β : Type} (l : List α) (g : α → β) (init : List β) :
    l.foldl (fun acc x => acc ++ [g x]) init = init ++ l.map g := by
  induction l generalizing init with
  | nil => simp
  | cons x l ih => simp [ih]

theorem enum_fold_eq_range_map {α β : Type} (l : List α) (F : ℕ → β) :
    (l.enum).foldl (fun acc p => acc ++ [F p.1]) [] = (List.range l.length).map F := by
  rw [foldl_append_eq_map]
  simp only [List.nil_append]
  have h1 : (l.enum).map (fun p => F p.1) = ((l.enum).map Prod.fst).map F := by
    rw [List.map_map]
    rfl
  rw [h1, List.enum_map_fst]

end Split

/-! ## Cross-Module Aggregators (`src/py/x3`)

Numeric per-entry fields are exact rationals; `chunk.get("field")` on an
entry is `fieldGet` (missing key and a JSON null both give `none`).
Python's `round(x, n)` rounds half to even; on exact values this is
`pyRound`. -/

def fieldGet (ent : Entry) (k : String) : Option ℚ :=
  (getKey ent.fields k).getD none

def roundHalfEven (q : ℚ) : ℤ :=
  let f := Rat.floor q
  let frac := q - f
  if frac < 1 / 2 then f
  else if 1 / 2 < frac then f + 1
  else if f % 2 = 0 then f else f + 1

def pyRound (q : ℚ) (ndigits : ℕ) : ℚ :=
  ((roundHalfEven (q * (10 : ℚ) ^ ndigits) : ℤ) : ℚ) / (10 : ℚ) ^ ndigits

theorem findSome?_eq_none_iff {α β : Type} (l : List α) (f : α → Option β) :
    l.findSome? f = none ↔ ∀ x ∈ l, f x = none := by
  induction l with
  | nil => simp
  | cons a l ih =>
      cases ha : f a with
      | some b => simp [List.findSome?, ha]
      | none => simp [List.findSome?, ha, ih]

/-! ### `src/py/x3/dynamic_range.py` -/

namespace DynamicRange

/-- The band-validation loop of `dynamic_range.py` (lines 22-35): iterate
the band set (`set` iteration order is unspecified in Python; the embedding
fixes first-occurrence order via `dedup`, which cannot change whether some
band fails validation) and report the first chunk-count or chunk-name
mismatch. -/
def findBandMismatch (dynamics_data quantization_data : Doc (List Entry)) : Option String :=
  (keysOf dynamics_data).dedup.findSome? (fun band =>
    let dynamics_chunks := (getD dynamics_data band []).length
    let quantization_chunks := (getD quantization_data band []).length
    if dynamics_chunks ≠ quantization_chunks then
      some ("Chunk count mismatch in band " ++ band ++ ": dynamics has "
        ++ toString dynamics_chunks ++ ", quantization has " ++ toString quantization_chunks)
    else if (getD dynamics_data band []).map Entry.chunk ≠
        (getD quantization_data band []).map Entry.chunk then
      some ("Chunk name mismatch in band " ++ band)
    else none)

/-- The `overall_crest_lookup` construction (dynamic_range.py lines
43-49): keyed by chunk name, only truthy chunk names with a non-null
`avg_crest_factor_db`. -/
def overallCrestLookup (dynamics_full_spectrum_data : List Entry) : Doc ℚ :=
  dynamics_full_spectrum_data.foldl
    (fun lookup chunk_data =>
      match fieldGet chunk_data "avg_crest_factor_db" with
      | some v => if chunk_data.chunk ≠ "" then setKey lookup chunk_data.chunk v else lookup
      | none => lookup) []

/-- One consolidated output entry (dynamic_range.py lines 58-111); the
unused local reads (`crest_factor_db`, `dynamic_range_db`,
`estimated_bits`) are dead loads in the source and carry no effect; the
`except` arm around this pure arithmetic is unreachable. -/
def drEntry (noise_floor_fallback_db : ℚ) (lookup : Doc ℚ)
    (dynamics_chunk quantization_chunk : Entry) : Entry :=
  let chunk_name := dynamics_chunk.chunk
  let peak_dbfs := fieldGet dynamics_chunk "peak_dbfs"
  let rms_dbfs := fieldGet dynamics_chunk "rms_dbfs"
  let noise_floor_db := fieldGet quantization_chunk "avg_noise_floor_db"
  let peak_to_noise_ratio_db :=
    match peak_dbfs, noise_floor_db with
    | some p, some n => some (p - n)
    | some p, none => some (p - noise_floor_fallback_db)
    | none, _ => none
  let signal_to_noise_ratio_db :=
    match rms_dbfs, noise_floor_db with
    | some r, some n => some (r - n)
    | some r, none => some (r - noise_floor_fallback_db)
    | none, _ => none
  let overall_avg_crest_factor_db := getKey lookup chunk_name
  let error_messages :=
    (match dynamics_chunk.error with
     | some e => if e ≠ "" then ["dynamics: " ++ e] else []
     | none => []) ++
    (match quantization_chunk.error with
     | some e => if e ≠ "" then ["quantization: " ++ e] else []
     | none => [])
  ⟨chunk_name,
   [("peak_to_noise_ratio_db", peak_to_noise_ratio_db.map (fun q => pyRound q 2)),
    ("signal_to_noise_ratio_db", signal_to_noise_ratio_db.map (fun q => pyRound q 2)),
    ("overall_avg_crest_factor_db", overall_avg_crest_factor_db.map (fun q => pyRound q 2))],
   if error_messages.isEmpty then none else some (String.intercalate "; " error_messages)⟩

/-- `process` of `dynamic_range.py` (lines 4-122).  Inputs are the `.get`
chains over `previous`: `previous.get("dynamics", {}).get("result", {})`
etc. (an absent module, a top-level `{"error": ...}` value, or an empty
result all give the empty default, which the emptiness guards catch); the
band-set comparison message interpolates Python `set` reprs whose order is
unspecified, fixed text here.  The per-band output list is built by the
index loop in one pass (`output[band] = []` then appends), rendered as a
`List.range` map. -/
def process (noise_floor_fallback_db : ℚ)
    (dynamics_data quantization_data : Doc (List Entry))
    (dynamics_full_spectrum_data : List Entry) : BandedOut :=
  if dynamics_data.isEmpty then .error "Missing dynamics result."
  else if quantization_data.isEmpty then .error "Missing quantization result."
  else if (keysOf dynamics_data).toFinset ≠ (keysOf quantization_data).toFinset then
    .error "Band mismatch: dynamics and quantization band sets differ"
  else
    match findBandMismatch dynamics_data quantization_data with
    | some e => .error e
    | none =>
        let overall_crest_lookup := overallCrestLookup dynamics_full_spectrum_data
        let output := (keysOf dynamics_data).foldl
          (fun out band =>
            let dynamics_band_data := getD dynamics_data band []
            let quantization_band_data := getD quantization_data band []
            setKey out band ((List.range dynamics_band_data.length).map
              (fun i => drEntry noise_floor_fallback_db overall_crest_lookup
                (dynamics_band_data.getD i default) (quantization_band_data.getD i default))))
          []
        .result output

end DynamicRange

/-! ### `src/py/x3/audio_quality.py` -/

namespace AudioQuality

/-- The result of `calculate_sinad_for_chunk` (audio_quality.py lines
5-82), an external chunk-file analysis; `sinad_error` is set when the
whole computation raised. -/
structure SinadResult where
  avg_sinad_db : Option ℚ
  min_sinad_db : Option ℚ
  max_sinad_db : Option ℚ
  std_sinad_db : Option ℚ
  frames_analyzed : ℕ
  sinad_error : Option String
deriving DecidableEq

/-- The band-validation loop of `audio_quality.py` (lines 102-115), same
shape as dynamic_range's with quantization against harmonics. -/
def findBandMismatch (quantization_data harmonics_data : Doc (List Entry)) : Option String :=
  (keysOf quantization_data).dedup.findSome? (fun band =>
    let quantization_chunks := (getD quantization_data band []).length
    let harmonics_chunks := (getD harmonics_data band []).length
    if quantization_chunks ≠ harmonics_chunks then
      some ("Chunk count mismatch in band " ++ band ++ ": quantization has "
        ++ toString quantization_chunks ++ ", harmonics has " ++ toString harmonics_chunks)
    else if (getD quantization_data band []).map Entry.chunk ≠
        (getD harmonics_data band []).map Entry.chunk then
      some ("Chunk name mismatch in band " ++ band)
    else none)

/-- The `spectral_flatness_ratio_lookup` construction (audio_quality.py
lines 127-132); note the source reads key `"spectral_flatness_ratio"`
from the harmonics_full_spectrum entries. -/
def flatnessLookup (harmonics_full_spectrum_data : List Entry) : Doc ℚ :=
  harmonics_full_spectrum_data.foldl
    (fun lookup chunk_data =>
      match fieldGet chunk_data "spectral_flatness_ratio" with
      | some v => if chunk_data.chunk ≠ "" then setKey lookup chunk_data.chunk v else lookup
      | none => lookup) []

/-- One consolidated output entry (audio_quality.py lines 140-210).
`pow2` is Python's `2 ** estimated_bits` on a non-integral exponent (a
float operation, external); `sinad` is `calculate_sinad_for_chunk` (the
per-chunk cache around it is semantically transparent for a pure
function); the `except` arm is unreachable for this pure arithmetic. -/
def aqEntry (pow2 : ℚ → ℚ) (sinad : String → SinadResult) (lookup : Doc ℚ)
    (quantization_chunk harmonics_chunk : Entry) : Entry :=
  let chunk_name := quantization_chunk.chunk
  let estimated_bits := fieldGet quantization_chunk "estimated_bits"
  let unique_levels := fieldGet quantization_chunk "unique_levels"
  let quantization_efficiency :=
    match estimated_bits, unique_levels with
    | some eb, some ul =>
        let theoretical_levels := if 0 < eb then pow2 eb else 1
        some (if 0 < theoretical_levels then ul / theoretical_levels else 0)
    | _, _ => none
  let sinad_results := sinad chunk_name
  let spectral_flatness_ratio := getKey lookup chunk_name
  let error_messages :=
    (match quantization_chunk.error with
     | some e => if e ≠ "" then ["quantization: " ++ e] else []
     | none => []) ++
    (match harmonics_chunk.error with
     | some e => if e ≠ "" then ["harmonics: " ++ e] else []
     | none => []) ++
    (match sinad_results.sinad_error with
     | some e => if e ≠ "" then ["sinad: " ++ e] else []
     | none => [])
  ⟨chunk_name,
   [("quantization_efficiency", quantization_efficiency.map (fun q => pyRound q 4)),
    ("spectral_flatness_ratio", spectral_flatness_ratio.map (fun q => pyRound q 6)),
    ("avg_sinad_db", sinad_results.avg_sinad_db),
    ("min_sinad_db", sinad_results.min_sinad_db),
    ("max_sinad_db", sinad_results.max_sinad_db),
    ("std_sinad_db", sinad_results.std_sinad_db)],
   if error_messages.isEmpty then none else some (String.intercalate "; " error_messages)⟩

/-- `process` of `audio_quality.py` (lines 84-212).  Unlike dynamic_range,
the output loop iterates `quantization_bands` — the *set* — modelled in
first-occurrence order (`dedup`). -/
def process (pow2 : ℚ → ℚ) (sinad : String → SinadResult)
    (quantization_data harmonics_data : Doc (List Entry))
    (harmonics_full_spectrum_data : List Entry) : BandedOut :=
  if quantization_data.isEmpty then .error "Missing quantization result."
  else if harmonics_data.isEmpty then .error "Missing harmonics result."
  else if (keysOf quantization_data).toFinset ≠ (keysOf harmonics_data).toFinset then
    .error "Band mismatch: quantization and harmonics band sets differ"
  else
    match findBandMismatch quantization_data harmonics_data with
    | some e => .error e
    | none =>
        let lookup := flatnessLookup harmonics_full_spectrum_data
        let output := (keysOf quantization_data).dedup.foldl
          (fun out band =>
            let quantization_band_data := getD quantization_data band []
            let harmonics_band_data := getD harmonics_data band []
            setKey out band ((List.range quantization_band_data.length).map
              (fun i => aqEntry pow2 sinad lookup
                (quantization_band_data.getD i default) (harmonics_band_data.getD i default))))
          []
        .result output

end AudioQuality

theorem getD_map {α β : Type} (l : List α) (f : α → β) (k : ℕ) (hk : k < l.length)
    (d : β) (da : α) : (l.map f).getD k d = f (l.getD k da) := by
  rw [List.getD_eq_getElem _ _ (by simpa using hk), List.getElem_map,
      List.getD_eq_getElem _ _ hk]

theorem getD_range_map {β : Type} (n : ℕ) (F : ℕ → β) (i : ℕ) (hi : i < n) (d : β) :
    ((List.range n).map F).getD i d = F i := by
  rw [List.getD_eq_getElem _ _ (by simpa using hi)]
  simp

theorem nullErrEntry_fields_none (names : List String) (c e : String) :
    ∀ f ∈ (nullErrEntry names c e).fields, f.2 = none := by
  intro f hf
  simp only [nullErrEntry, List.mem_map] at hf
  obtain ⟨n, _, rfl⟩ := hf
  rfl

/-- The validation loop of `dynamic_range.py` passes (returns `None`) iff
every band of the dynamics input matches the quantization input in chunk
count and positional chunk names. -/
theorem DynamicRange.dr_findBandMismatch_none_iff (dyn quant : Doc (List Entry)) :
    DynamicRange.findBandMismatch dyn quant = none ↔
      ∀ band ∈ keysOf dyn, (getD dyn band []).length = (getD quant band []).length ∧
        (getD dyn band []).map Entry.chunk = (getD quant band []).map Entry.chunk := by
  unfold DynamicRange.findBandMismatch
  rw [findSome?_eq_none_iff]
  constructor
  · intro h band hb
    have hx := h band (List.mem_dedup.mpr hb)
    by_cases h1 : (getD dyn band []).length = (getD quant band []).length
    · by_cases h2 : (getD dyn band []).map Entry.chunk = (getD quant band []).map Entry.chunk
      · exact ⟨h1, h2⟩
      · simp [h1, h2] at hx
    · simp [h1] at hx
  · intro h band hb
    have hx := h band (List.mem_dedup.mp hb)
    simp [hx.1, hx.2]

/-- The validation loop of `audio_quality.py` passes (returns `None`) iff
every band of the quantization input matches the harmonics input in chunk
count and positional chunk names. -/
theorem AudioQuality.aq_findBandMismatch_none_iff (quant harm : Doc (List Entry)) :
    AudioQuality.findBandMismatch quant harm = none ↔
      ∀ band ∈ keysOf quant, (getD quant band []).length = (getD harm band []).length ∧
        (getD quant band []).map Entry.chunk = (getD harm band []).map Entry.chunk := by
  unfold AudioQuality.findBandMismatch
  rw [findSome?_eq_none_iff]
  constructor
  · intro h band hb
    have hx := h band (List.mem_dedup.mpr hb)
    by_cases h1 : (getD quant band []).length = (getD harm band []).length
    · by_cases h2 : (getD quant band []).map Entry.chunk = (getD harm band []).map Entry.chunk
      · exact ⟨h1, h2⟩
      · simp [h1, h2] at hx
    · simp [h1] at hx
  · intro h band hb
    have hx := h band (List.mem_dedup.mp hb)
    simp [hx.1, hx.2]

/-! ## Claims -/

/-- C4: for every chunk-dependent analysis module (stereo_correlation,
stereo_width, stereo_phase, sparkle, harmonics, harmonics_full_spectrum,
freq_response, dynamics, dynamics_full_spectrum, quantization,
quantization_full_spectrum) and every previous-results mapping in which
`previous["split"]["chunks"]` is missing (`none`) or empty (`some []`),
`process` returns exactly `{"error": "Missing or empty split result."}`
and produces no partial per-chunk or per-band output. -/
theorem C4_empty_split_guard :
    (∀ (Data : Type) (read : String → Except String Data)
      (analyze : Data → ℕ → Except String Entry) (edges : ℕ → ℚ) (bands : ℕ)
      (out_path : String) (sc : Option (List String)), sc = none ∨ sc = some [] →
      Dynamics.process read analyze edges bands out_path sc =
        .error "Missing or empty split result.") ∧
    (∀ (Data : Type) (read : String → Except String Data)
      (analyze : Data → ℕ → Except String Entry) (edges : ℕ → ℚ) (bands : ℕ)
      (out_path : String) (sc : Option (List String)), sc = none ∨ sc = some [] →
      Quantization.process read analyze edges bands out_path sc =
        .error "Missing or empty split result.") ∧
    (∀ (Data : Type) (read : String → Except String Data) (isStereo : Data → Bool)
      (analyze : Data → ℕ → Except String Entry) (edges : ℕ → ℚ) (bands : ℕ)
      (out_path : String) (mw : Option ℕ) (sch : List ℕ) (sc : Option (List String)),
      sc = none ∨ sc = some [] →
      StereoCorrelation.process read isStereo analyze edges bands out_path mw sch sc =
        .error "Missing or empty split result.") ∧
    (∀ (Data : Type) (read : String → Except String Data) (isStereo : Data → Bool)
      (analyze : Data → ℕ → Except String Entry) (edges : ℕ → ℚ) (bands : ℕ)
      (out_path : String) (mw : Option ℕ) (sch : List ℕ) (sc : Option (List String)),
      sc = none ∨ sc = some [] →
      StereoWidth.process read isStereo analyze edges bands out_path mw sch sc =
        .error "Missing or empty split result.") ∧
    (∀ (Data : Type) (read : String → Except String Data) (isStereo : Data → Bool)
      (analyze : Data → ℕ → Except String Entry) (edges : ℕ → ℚ) (bands : ℕ)
      (out_path : String) (sc : Option (List String)), sc = none ∨ sc = some [] →
      StereoPhase.process read isStereo analyze edges bands out_path sc =
        .error "Missing or empty split result.") ∧
    (∀ (Data : Type) (read : String → Except String Data)
      (analyze : Data → ℕ → Except String Entry) (edges : ℕ → ℚ) (bands : ℕ)
      (out_path : String) (mw : Option ℕ) (sch : List ℕ) (sc : Option (List String)),
      sc = none ∨ sc = some [] →
      Sparkle.process read analyze edges bands out_path mw sch sc =
        .error "Missing or empty split result.") ∧
    (∀ (Data : Type) (read : String → Except String Data)
      (analyze : Data → ℕ → Except String Entry) (edges : ℕ → ℚ) (bands : ℕ)
      (out_path : String) (mw : Option ℕ) (sch : List ℕ) (sc : Option (List String)),
      sc = none ∨ sc = some [] →
      Harmonics.process read analyze edges bands out_path mw sch sc =
        .error "Missing or empty split result.") ∧
    (∀ (Data : Type) (read : String → Except String Data) (framesEmpty : Data → Bool)
      (analyze : Data → Except String (ℕ → Entry)) (edges : ℕ → ℚ) (bands : ℕ)
      (out_path : String) (mw : Option ℕ) (sch : List ℕ) (sc : Option (List String)),
      sc = none ∨ sc = some [] →
      FreqResponse.process read framesEmpty analyze edges bands out_path mw sch sc =
        .error "Missing or empty split result.") ∧
    (∀ (Data : Type) (read : String → Except String Data)
      (analyze : Data → Except String Entry) (out_path : String) (sc : Option (List String)),
      sc = none ∨ sc = some [] →
      DynamicsFullSpectrum.process read analyze out_path sc =
        .error "Missing or empty split result.") ∧
    (∀ (Data : Type) (read : String → Except String Data)
      (analyze : Data → Except String Entry) (out_path : String) (sc : Option (List String)),
      sc = none ∨ sc = some [] →
      QuantizationFullSpectrum.process read analyze out_path sc =
        .error "Missing or empty split result.") ∧
    (∀ (Data : Type) (read : String → Except String Data)
      (analyze : Data → Except String Entry) (out_path : String) (mw : Option ℕ)
      (sch : List ℕ) (sc : Option (List String)), sc = none ∨ sc = some [] →
      HarmonicsFullSpectrum.process read analyze out_path mw sch sc =
        .error "Missing or empty split result.") := by
  refine ⟨?_, ?_, ?_, ?_, ?_, ?_, ?_, ?_, ?_, ?_, ?_⟩ <;>
    intros <;>
    rename_i h <;>
    rcases h with rfl | rfl <;>
    rfl

/-- Witness for C4 at a concrete input: the dynamics module with a missing
split result. -/
theorem C4_empty_split_guard_witness :
    Dynamics.process (fun _ : String => (Except.error "" : Except String Unit))
      (fun _ _ => Except.error "") (fun _ => 0) 10 "out" none =
      .error "Missing or empty split result." :=
  C4_empty_split_guard.1 Unit (fun _ => Except.error "") (fun _ _ => Except.error "")
    (fun _ => 0) 10 "out" none (Or.inl rfl)

/-- C5: for every banded analysis module (dynamics, quantization,
stereo_correlation, stereo_width, stereo_phase, sparkle, harmonics,
freq_response) and every non-empty chunk list in which exactly one chunk
file (position `k`) is unreadable and the others read successfully, the
top-level output is `{"result": ...}` (not `{"error": ...}`); in every
band the failing chunk contributes exactly one entry — at its own position
— with a populated `error` field and all numeric fields null, and every
other chunk's entry is the module's normal computation on that chunk's own
data: per-chunk failure never aborts sibling computations.  (`hinj`
states the band keys are pairwise distinct, true of the log-spaced
configuration; fan-out modules additionally take the splitter's completion
schedule, an arbitrary permutation.) -/
theorem C5_chunk_failure_isolation :
    (∀ (Data : Type) (read : String → Except String Data)
      (analyze : Data → ℕ → Except String Entry) (edges : ℕ → ℚ) (bands : ℕ)
      (out_path : String) (cs : List String) (k : ℕ) (e : String) (dataOf : ℕ → Data),
      (∀ i ∈ List.range bands, ∀ j ∈ List.range bands,
        Dynamics.rangeKey edges i = Dynamics.rangeKey edges j → i = j) →
      k < cs.length →
      read (pathJoin out_path (cs.getD k "")) = .error e →
      (∀ j, j < cs.length → j ≠ k → read (pathJoin out_path (cs.getD j "")) = .ok (dataOf j)) →
      ∃ d, Dynamics.process read analyze edges bands out_path (some cs) = .result d ∧
        ∀ i, i < bands → ∃ l, getKey d (Dynamics.rangeKey edges i) = some l ∧
          l.length = cs.length ∧
          (l.getD k default).error = some e ∧
          (∀ f ∈ (l.getD k default).fields, f.2 = none) ∧
          (∀ j, j < cs.length → j ≠ k →
            l.getD j default = Dynamics.bandEntry analyze (cs.getD j "") (dataOf j) i)) ∧
    (∀ (Data : Type) (read : String → Except String Data)
      (analyze : Data → ℕ → Except String Entry) (edges : ℕ → ℚ) (bands : ℕ)
      (out_path : String) (cs : List String) (k : ℕ) (e : String) (dataOf : ℕ → Data),
      (∀ i ∈ List.range bands, ∀ j ∈ List.range bands,
        Quantization.rangeKey edges i = Quantization.rangeKey edges j → i = j) →
      k < cs.length →
      read (pathJoin out_path (cs.getD k "")) = .error e →
      (∀ j, j < cs.length → j ≠ k → read (pathJoin out_path (cs.getD j "")) = .ok (dataOf j)) →
      ∃ d, Quantization.process read analyze edges bands out_path (some cs) = .result d ∧
        ∀ i, i < bands → ∃ l, getKey d (Quantization.rangeKey edges i) = some l ∧
          l.length = cs.length ∧
          (l.getD k default).error = some e ∧
          (∀ f ∈ (l.getD k default).fields, f.2 = none) ∧
          (∀ j, j < cs.length → j ≠ k →
            l.getD j default = Quantization.bandEntry analyze (cs.getD j "") (dataOf j) i)) ∧
    (∀ (Data : Type) (read : String → Except String Data) (isStereo : Data → Bool)
      (analyze : Data → ℕ → Except String Entry) (edges : ℕ → ℚ) (bands : ℕ)
      (out_path : String) (mw : Option ℕ) (sch : List ℕ) (cs : List String) (k : ℕ)
      (e : String) (dataOf : ℕ → Data),
      (∀ i ∈ List.range bands, ∀ j ∈ List.range bands,
        StereoCorrelation.rangeKey edges i = StereoCorrelation.rangeKey edges j → i = j) →
      sch.Perm (List.range cs.length) →
      k < cs.length →
      read (pathJoin out_path (cs.getD k "")) = .error e →
      (∀ j, j < cs.length → j ≠ k → read (pathJoin out_path (cs.getD j "")) = .ok (dataOf j)) →
      ∃ d, StereoCorrelation.process read isStereo analyze edges bands out_path mw sch (some cs)
          = .result d ∧
        ∀ i, i < bands → ∃ l, getKey d (StereoCorrelation.rangeKey edges i) = some l ∧
          l.length = cs.length ∧
          (l.getD k default).error = some e ∧
          (∀ f ∈ (l.getD k default).fields, f.2 = none) ∧
          (∀ j, j < cs.length → j ≠ k →
            l.getD j default =
              if ¬ isStereo (dataOf j) then
                nullErrEntry StereoCorrelation.fieldNames (cs.getD j "") "Not stereo"
              else
                match analyze (dataOf j) i with
                | .ok ent => ent
                | .error e2 => nullErrEntry StereoCorrelation.fieldNames (cs.getD j "") e2)) ∧
    (∀ (Data : Type) (read : String → Except String Data) (isStereo : Data → Bool)
      (analyze : Data → ℕ → Except String Entry) (edges : ℕ → ℚ) (bands : ℕ)
      (out_path : String) (mw : Option ℕ) (sch : List ℕ) (cs : List String) (k : ℕ)
      (e : String) (dataOf : ℕ → Data),
      (∀ i ∈ List.range bands, ∀ j ∈ List.range bands,
        StereoWidth.rangeKey edges i = StereoWidth.rangeKey edges j → i = j) →
      sch.Perm (List.range cs.length) →
      k < cs.length →
      read (pathJoin out_path (cs.getD k "")) = .error e →
      (∀ j, j < cs.length → j ≠ k → read (pathJoin out_path (cs.getD j "")) = .ok (dataOf j)) →
      ∃ d, StereoWidth.process read isStereo analyze edges bands out_path mw sch (some cs)
          = .result d ∧
        ∀ i, i < bands → ∃ l, getKey d (StereoWidth.rangeKey edges i) = some l ∧
          l.length = cs.length ∧
          (l.getD k default).error = some e ∧
          (∀ f ∈ (l.getD k default).fields, f.2 = none) ∧
          (∀ j, j < cs.length → j ≠ k →
            l.getD j default =
              if ¬ isStereo (dataOf j) then
                nullErrEntry StereoWidth.fieldNames (cs.getD j "") "Not stereo"
              else
                match analyze (dataOf j) i with
                | .ok ent => ent
                | .error e2 => nullErrEntry StereoWidth.fieldNames (cs.getD j "") e2)) ∧
    (∀ (Data : Type) (read : String → Except String Data) (isStereo : Data → Bool)
      (analyze : Data → ℕ → Except String Entry) (edges : ℕ → ℚ) (bands : ℕ)
      (out_path : String) (cs : List String) (k : ℕ) (e : String) (dataOf : ℕ → Data),
      (∀ i ∈ List.range bands, ∀ j ∈ List.range bands,
        StereoPhase.rangeKey edges i = StereoPhase.rangeKey edges j → i = j) →
      k < cs.length →
      read (pathJoin out_path (cs.getD k "")) = .error e →
      (∀ j, j < cs.length → j ≠ k → read (pathJoin out_path (cs.getD j "")) = .ok (dataOf j)) →
      ∃ d, StereoPhase.process read isStereo analyze edges bands out_path (some cs)
          = .result d ∧
        ∀ i, i < bands → ∃ l, getKey d (StereoPhase.rangeKey edges i) = some l ∧
          l.length = cs.length ∧
          (l.getD k default).error = some e ∧
          (∀ f ∈ (l.getD k default).fields, f.2 = none) ∧
          (∀ j, j < cs.length → j ≠ k →
            l.getD j default =
              if ¬ isStereo (dataOf j) then
                nullErrEntry StereoPhase.fieldNames (cs.getD j "") "Not stereo"
              else StereoPhase.bandEntry analyze (cs.getD j "") (dataOf j) i)) ∧
    (∀ (Data : Type) (read : String → Except String Data)
      (analyze : Data → ℕ → Except String Entry) (edges : ℕ → ℚ) (bands : ℕ)
      (out_path : String) (mw : Option ℕ) (sch : List ℕ) (cs : List String) (k : ℕ)
      (e : String) (dataOf : ℕ → Data),
      (∀ i ∈ List.range bands, ∀ j ∈ List.range bands,
        Sparkle.rangeKey edges i = Sparkle.rangeKey edges j → i = j) →
      sch.Perm (List.range cs.length) →
      k < cs.length →
      read (pathJoin out_path (cs.getD k "")) = .error e →
      (∀ j, j < cs.length → j ≠ k → read (pathJoin out_path (cs.getD j "")) = .ok (dataOf j)) →
      ∃ d, Sparkle.process read analyze edges bands out_path mw sch (some cs) = .result d ∧
        ∀ i, i < bands → ∃ l, getKey d (Sparkle.rangeKey edges i) = some l ∧
          l.length = cs.length ∧
          (l.getD k default).error = some e ∧
          (∀ f ∈ (l.getD k default).fields, f.2 = none) ∧
          (∀ j, j < cs.length → j ≠ k →
            l.getD j default =
              match analyze (dataOf j) i with
              | .ok ent => ent
              | .error e2 => nullErrEntry Sparkle.fieldNames (cs.getD j "") e2)) ∧
    (∀ (Data : Type) (read : String → Except String Data)
      (analyze : Data → ℕ → Except String Entry) (edges : ℕ → ℚ) (bands : ℕ)
      (out_path : String) (mw : Option ℕ) (sch : List ℕ) (cs : List String) (k : ℕ)
      (e : String) (dataOf : ℕ → Data),
      (∀ i ∈ List.range bands, ∀ j ∈ List.range bands,
        Harmonics.rangeKey edges i = Harmonics.rangeKey edges j → i = j) →
      sch.Perm (List.range cs.length) →
      k < cs.length →
      read (pathJoin out_path (cs.getD k "")) = .error e →
      (∀ j, j < cs.length → j ≠ k → read (pathJoin out_path (cs.getD j "")) = .ok (dataOf j)) →
      ∃ d, Harmonics.process read analyze edges bands out_path mw sch (some cs) = .result d ∧
        ∀ i, i < bands → ∃ l, getKey d (Harmonics.rangeKey edges i) = some l ∧
          l.length = cs.length ∧
          (l.getD k default).error = some e ∧
          (∀ f ∈ (l.getD k default).fields, f.2 = none) ∧
          (∀ j, j < cs.length → j ≠ k →
            l.getD j default =
              match analyze (dataOf j) i with
              | .ok ent => ent
              | .error e2 => nullErrEntry Harmonics.fieldNames (cs.getD j "") e2)) ∧
    (∀ (Data : Type) (read : String → Except String Data) (framesEmpty : Data → Bool)
      (analyze : Data → Except String (ℕ → Entry)) (edges : ℕ → ℚ) (bands : ℕ)
      (out_path : String) (mw : Option ℕ) (sch : List ℕ) (cs : List String) (k : ℕ)
      (e : String) (dataOf : ℕ → Data),
      (∀ i ∈ List.range bands, ∀ j ∈ List.range bands,
        FreqResponse.rangeKey edges i = FreqResponse.rangeKey edges j → i = j) →
      sch.Perm (List.range cs.length) →
      k < cs.length →
      read (pathJoin out_path (cs.getD k "")) = .error e →
      (∀ j, j < cs.length → j ≠ k → read (pathJoin out_path (cs.getD j "")) = .ok (dataOf j)) →
      ∃ d, FreqResponse.process read framesEmpty analyze edges bands out_path mw sch (some cs)
          = .result d ∧
        ∀ i, i < bands → ∃ l, getKey d (FreqResponse.rangeKey edges i) = some l ∧
          l.length = cs.length ∧
          (l.getD k default).error = some e ∧
          (∀ f ∈ (l.getD k default).fields, f.2 = none) ∧
          (∀ j, j < cs.length → j ≠ k →
            l.getD j default =
              if framesEmpty (dataOf j) then
                nullErrEntry FreqResponse.fieldNames (cs.getD j "") "No frames processed"
              else
                match analyze (dataOf j) with
                | .ok f => f i
                | .error e2 => nullErrEntry FreqResponse.fieldNames (cs.getD j "") e2)) := by
  refine ⟨?_, ?_, ?_, ?_, ?_, ?_, ?_, ?_⟩
  · intro Data read analyze edges bands out_path cs k e dataOf hinj hk hfail hok
    have hcs : cs ≠ [] := by intro h; rw [h] at hk; simp at hk
    refine ⟨_, Dynamics.dynamics_process_char read analyze edges bands out_path cs hinj hcs, ?_⟩
    intro i hi
    refine ⟨cs.map (fun c => Dynamics.chunkEntry read analyze out_path c i),
      getKey_mapForm (List.range bands) (Dynamics.rangeKey edges) _ hinj i
        (List.mem_range.mpr hi), by simp, ?_, ?_, ?_⟩
    · rw [getD_map cs _ k hk default ""]
      simp only [Dynamics.chunkEntry, hfail]
      rfl
    · rw [getD_map cs _ k hk default ""]
      have hent : Dynamics.chunkEntry read analyze out_path (cs.getD k "") i =
          nullErrEntry Dynamics.fieldNames (cs.getD k "") e := by
        simp only [Dynamics.chunkEntry, hfail]
      rw [hent]
      exact nullErrEntry_fields_none _ _ _
    · intro j hj hne
      rw [getD_map cs _ j hj default ""]
      simp only [Dynamics.chunkEntry, hok j hj hne]
  · intro Data read analyze edges bands out_path cs k e dataOf hinj hk hfail hok
    have hcs : cs ≠ [] := by intro h; rw [h] at hk; simp at hk
    refine ⟨_, Quantization.quantization_process_char read analyze edges bands out_path cs hinj hcs, ?_⟩
    intro i hi
    refine ⟨cs.map (fun c => Quantization.chunkEntry read analyze out_path c i),
      getKey_mapForm (List.range bands) (Quantization.rangeKey edges) _ hinj i
        (List.mem_range.mpr hi), by simp, ?_, ?_, ?_⟩
    · rw [getD_map cs _ k hk default ""]
      simp only [Quantization.chunkEntry, hfail]
      rfl
    · rw [getD_map cs _ k hk default ""]
      have hent : Quantization.chunkEntry read analyze out_path (cs.getD k "") i =
          nullErrEntry Quantization.fieldNames (cs.getD k "") e := by
        simp only [Quantization.chunkEntry, hfail]
      rw [hent]
      exact nullErrEntry_fields_none _ _ _
    · intro j hj hne
      rw [getD_map cs _ j hj default ""]
      simp only [Quantization.chunkEntry, hok j hj hne]
  · intro Data read isStereo analyze edges bands out_path mw sch cs k e dataOf hinj hsch hk
      hfail hok
    have hcs : cs ≠ [] := by intro h; rw [h] at hk; simp at hk
    refine ⟨_, StereoCorrelation.stereo_correlation_process_char read isStereo analyze edges bands out_path mw sch
      cs hinj hcs hsch, ?_⟩
    intro i hi
    refine ⟨cs.map (fun c => StereoCorrelation.chunkEntry read isStereo analyze out_path c i),
      getKey_mapForm (List.range bands) (StereoCorrelation.rangeKey edges) _ hinj i
        (List.mem_range.mpr hi), by simp, ?_, ?_, ?_⟩
    · rw [getD_map cs _ k hk default ""]
      simp only [StereoCorrelation.chunkEntry, hfail]
      rfl
    · rw [getD_map cs _ k hk default ""]
      have hent : StereoCorrelation.chunkEntry read isStereo analyze out_path (cs.getD k "") i =
          nullErrEntry StereoCorrelation.fieldNames (cs.getD k "") e := by
        simp only [StereoCorrelation.chunkEntry, hfail]
      rw [hent]
      exact nullErrEntry_fields_none _ _ _
    · intro j hj hne
      rw [getD_map cs _ j hj default ""]
      simp only [StereoCorrelation.chunkEntry, hok j hj hne]
  · intro Data read isStereo analyze edges bands out_path mw sch cs k e dataOf hinj hsch hk
      hfail hok
    have hcs : cs ≠ [] := by intro h; rw [h] at hk; simp at hk
    refine ⟨_, StereoWidth.stereo_width_process_char read isStereo analyze edges bands out_path mw sch
      cs hinj hcs hsch, ?_⟩
    intro i hi
    refine ⟨cs.map (fun c => StereoWidth.chunkEntry read isStereo analyze out_path c i),
      getKey_mapForm (List.range bands) (StereoWidth.rangeKey edges) _ hinj i
        (List.mem_range.mpr hi), by simp, ?_, ?_, ?_⟩
    · rw [getD_map cs _ k hk default ""]
      simp only [StereoWidth.chunkEntry, hfail]
      rfl
    · rw [getD_map cs _ k hk default ""]
      have hent : StereoWidth.chunkEntry read isStereo analyze out_path (cs.getD k "") i =
          nullErrEntry StereoWidth.fieldNames (cs.getD k "") e := by
        simp only [StereoWidth.chunkEntry, hfail]
      rw [hent]
      exact nullErrEntry_fields_none _ _ _
    · intro j hj hne
      rw [getD_map cs _ j hj default ""]
      simp only [StereoWidth.chunkEntry, hok j hj hne]
  · intro Data read isStereo analyze edges bands out_path cs k e dataOf hinj hk hfail hok
    have hcs : cs ≠ [] := by intro h; rw [h] at hk; simp at hk
    refine ⟨_, StereoPhase.stereo_phase_process_char read isStereo analyze edges bands out_path cs hinj
      hcs, ?_⟩
    intro i hi
    refine ⟨cs.map (fun c => StereoPhase.chunkEntry read isStereo analyze out_path c i),
      getKey_mapForm (List.range bands) (StereoPhase.rangeKey edges) _ hinj i
        (List.mem_range.mpr hi), by simp, ?_, ?_, ?_⟩
    · rw [getD_map cs _ k hk default ""]
      simp only [StereoPhase.chunkEntry, hfail]
      rfl
    · rw [getD_map cs _ k hk default ""]
      have hent : StereoPhase.chunkEntry read isStereo analyze out_path (cs.getD k "") i =
          nullErrEntry StereoPhase.fieldNames (cs.getD k "") e := by
        simp only [StereoPhase.chunkEntry, hfail]
      rw [hent]
      exact nullErrEntry_fields_none _ _ _
    · intro j hj hne
      rw [getD_map cs _ j hj default ""]
      simp only [StereoPhase.chunkEntry, hok j hj hne]
  · intro Data read analyze edges bands out_path mw sch cs k e dataOf hinj hsch hk hfail hok
    have hcs : cs ≠ [] := by intro h; rw [h] at hk; simp at hk
    refine ⟨_, Sparkle.sparkle_process_char read analyze edges bands out_path mw sch cs hinj hcs
      hsch, ?_⟩
    intro i hi
    refine ⟨cs.map (fun c => Sparkle.chunkEntry read analyze out_path c i),
      getKey_mapForm (List.range bands) (Sparkle.rangeKey edges) _ hinj i
        (List.mem_range.mpr hi), by simp, ?_, ?_, ?_⟩
    · rw [getD_map cs _ k hk default ""]
      simp only [Sparkle.chunkEntry, hfail]
      rfl
    · rw [getD_map cs _ k hk default ""]
      have hent : Sparkle.chunkEntry read analyze out_path (cs.getD k "") i =
          nullErrEntry Sparkle.fieldNames (cs.getD k "") e := by
        simp only [Sparkle.chunkEntry, hfail]
      rw [hent]
      exact nullErrEntry_fields_none _ _ _
    · intro j hj hne
      rw [getD_map cs _ j hj default ""]
      simp only [Sparkle.chunkEntry, hok j hj hne]
  · intro Data read analyze edges bands out_path mw sch cs k e dataOf hinj hsch hk hfail hok
    have hcs : cs ≠ [] := by intro h; rw [h] at hk; simp at hk
    refine ⟨_, Harmonics.harmonics_process_char read analyze edges bands out_path mw sch cs hinj hcs
      hsch, ?_⟩
    intro i hi
    refine ⟨cs.map (fun c => Harmonics.chunkEntry read analyze out_path c i),
      getKey_mapForm (List.range bands) (Harmonics.rangeKey edges) _ hinj i
        (List.mem_range.mpr hi), by simp, ?_, ?_, ?_⟩
    · rw [getD_map cs _ k hk default ""]
      simp only [Harmonics.chunkEntry, hfail]
      rfl
    · rw [getD_map cs _ k hk default ""]
      have hent : Harmonics.chunkEntry read analyze out_path (cs.getD k "") i =
          nullErrEntry Harmonics.fieldNames (cs.getD k "") e := by
        simp only [Harmonics.chunkEntry, hfail]
      rw [hent]
      exact nullErrEntry_fields_none _ _ _
    · intro j hj hne
      rw [getD_map cs _ j hj default ""]
      simp only [Harmonics.chunkEntry, hok j hj hne]
  · intro Data read framesEmpty analyze edges bands out_path mw sch cs k e dataOf hinj hsch hk
      hfail hok
    have hcs : cs ≠ [] := by intro h; rw [h] at hk; simp at hk
    refine ⟨_, FreqResponse.freq_response_process_char read framesEmpty analyze edges bands out_path mw sch
      cs hinj hcs hsch, ?_⟩
    intro i hi
    refine ⟨cs.map (fun c => FreqResponse.chunkEntry read framesEmpty analyze out_path c i),
      getKey_mapForm (List.range bands) (FreqResponse.rangeKey edges) _ hinj i
        (List.mem_range.mpr hi), by simp, ?_, ?_, ?_⟩
    · rw [getD_map cs _ k hk default ""]
      simp only [FreqResponse.chunkEntry, hfail]
      rfl
    · rw [getD_map cs _ k hk default ""]
      have hent : FreqResponse.chunkEntry read framesEmpty analyze out_path (cs.getD k "") i =
          nullErrEntry FreqResponse.fieldNames (cs.getD k "") e := by
        simp only [FreqResponse.chunkEntry, hfail]
      rw [hent]
      exact nullErrEntry_fields_none _ _ _
    · intro j hj hne
      rw [getD_map cs _ j hj default ""]
      simp only [FreqResponse.chunkEntry, hok j hj hne]

/-- Witness for C5 at a concrete input: two chunks, the first unreadable,
one band, for the dynamics module. -/
theorem C5_chunk_failure_isolation_witness :
    ∃ d, Dynamics.process
        (fun s => if s = pathJoin "out" "a" then (Except.error "io" : Except String Unit)
          else .ok ())
        (fun _ _ => .ok ⟨"x", [], none⟩) (fun i => (i : ℚ)) 1 "out" (some ["a", "b"])
        = .result d ∧
      ∀ i, i < 1 → ∃ l, getKey d (Dynamics.rangeKey (fun i => (i : ℚ)) i) = some l ∧
        l.length = (["a", "b"] : List String).length ∧
        (l.getD 0 default).error = some "io" ∧
        (∀ f ∈ (l.getD 0 default).fields, f.2 = none) ∧
        (∀ j, j < (["a", "b"] : List String).length → j ≠ 0 →
          l.getD j default = Dynamics.bandEntry (fun _ _ => .ok ⟨"x", [], none⟩)
            ((["a", "b"] : List String).getD j "") (() : Unit) i) := by
  have h := C5_chunk_failure_isolation.1 Unit
    (fun s => if s = pathJoin "out" "a" then (Except.error "io" : Except String Unit)
      else .ok ())
    (fun _ _ => .ok ⟨"x", [], none⟩) (fun i => (i : ℚ)) 1 "out" ["a", "b"] 0 "io" (fun _ => ())
    (by decide) (by decide) (by rfl)
    (by
      intro j hj hne
      have hj2 : j < 2 := by simpa using hj
      have hj1 : j = 1 := by omega
      subst hj1
      rfl)
  exact h

/-- C6: the band keys of the dynamics and quantization output documents
derived from the same `(low_hz, high_hz, bands)` triple are identical:
both modules pass `(log10 low_hz, log10 high_hz, bands+1)` to the
deterministic `np.logspace` (dynamics.py lines 117-120, quantization.py
lines 152-155), so the same triple yields the same edge array `edges`,
and the two modules' independent copies of the key-formatting loop then
produce byte-identical ordered key lists — for any chunk lists and any
read/analysis behaviour. -/
theorem C6_band_key_determinism {D₁ D₂ : Type}
    (read₁ : String → Except String D₁) (analyze₁ : D₁ → ℕ → Except String Entry)
    (read₂ : String → Except String D₂) (analyze₂ : D₂ → ℕ → Except String Entry)
    (edges : ℕ → ℚ) (bands : ℕ) (out₁ out₂ : String) (cs₁ cs₂ : List String)
    (h₁ : cs₁ ≠ []) (h₂ : cs₂ ≠ []) :
    ∃ d₁ d₂, Dynamics.process read₁ analyze₁ edges bands out₁ (some cs₁) = .result d₁ ∧
      Quantization.process read₂ analyze₂ edges bands out₂ (some cs₂) = .result d₂ ∧
      keysOf d₁ = keysOf d₂ := by
  obtain ⟨d₁, hd₁, hk₁⟩ := Dynamics.dynamics_process_keys read₁ analyze₁ edges bands out₁ cs₁ h₁
  obtain ⟨d₂, hd₂, hk₂⟩ := Quantization.quantization_process_keys read₂ analyze₂ edges bands out₂ cs₂ h₂
  refine ⟨d₁, d₂, hd₁, hd₂, ?_⟩
  rw [hk₁, hk₂, rangeKey_dyn_eq_quant]

/-- Witness for C6 at a concrete input. -/
theorem C6_band_key_determinism_witness :
    ∃ d₁ d₂,
      Dynamics.process (fun _ : String => (Except.error "io" : Except String Unit))
        (fun _ _ => Except.error "") (fun i => (i : ℚ)) 3 "out" (some ["a"]) = .result d₁ ∧
      Quantization.process (fun _ : String => (Except.error "io" : Except String Unit))
        (fun _ _ => Except.error "") (fun i => (i : ℚ)) 3 "out" (some ["b", "c"]) = .result d₂ ∧
      keysOf d₁ = keysOf d₂ :=
  C6_band_key_determinism (fun _ => Except.error "io") (fun _ _ => Except.error "")
    (fun _ => Except.error "io") (fun _ _ => Except.error "")
    (fun i => (i : ℚ)) 3 "out" "out" ["a"] ["b", "c"] (by simp) (by simp)

/-- C7: for every successful split, `count` equals the length of `chunks`
and the i-th element of `chunks` is the path of
`<src_filename>.<i zero-padded to 3 digits>.<ext>` relative to the output
root — positions align with chunk ordinals 000, 001, 002, … . -/
theorem C7_split_output_alignment (split_colon : String → List String)
    (toInt : String → Except String ℤ)
    (relpath : String → String → String) (pySort : List String → List String)
    (duration_str : String) (sox_path_ok : Bool)
    (soxRun : Except String Unit) (sox_files_glob : List String)
    (src_dir src_filename src_ext out_path : String) (r : Split.SplitResult)
    (h : Split.process split_colon toInt relpath pySort duration_str sox_path_ok soxRun
          sox_files_glob src_dir src_filename src_ext out_path = .ok r) :
    r.count = r.chunks.length ∧
    ∀ i, i < r.chunks.length →
      r.chunks.getD i "" =
        relpath (pathJoin src_dir (Split.chunkName src_filename src_ext i)) out_path := by
  unfold Split.process at h
  cases hp : Split.parse_timespan split_colon toInt duration_str with
  | error e => simp [hp] at h
  | ok chunk_length =>
      simp only [hp] at h
      by_cases hsx : sox_path_ok
      · simp only [hsx, not_true_eq_false, if_false] at h
        cases hrun : soxRun with
        | error e => simp [hrun] at h
        | ok u =>
            simp only [hrun] at h
            rw [Split.enum_fold_eq_range_map (pySort sox_files_glob)
                  (fun i => relpath (pathJoin src_dir (Split.chunkName src_filename src_ext i))
                    out_path)] at h
            injection h with hx
            subst hx
            refine ⟨rfl, ?_⟩
            intro i hi
            simp only [List.length_map, List.length_range] at hi
            rw [List.getD_eq_getElem _ _ (by simpa using hi)]
            simp
      · simp [hsx] at h

/-- Witness for C7 at a concrete input (two sox output files). -/
theorem C7_split_output_alignment_witness :
    (Split.process (fun _ => ["0", "30"]) (fun s => if s = "0" then .ok 0 else .ok 30)
      (fun p _ => p) (fun l => l) "0:30" true (.ok ())
      ["song.wav.wav001.wav", "song.wav.wav002.wav"] "out/song.wav/media" "song.wav" "wav"
      "out/song.wav" = .ok
        ⟨["out/song.wav/media/song.wav.000.wav", "out/song.wav/media/song.wav.001.wav"], 2, 30⟩) ∧
    (∀ i, i < 2 →
      (["out/song.wav/media/song.wav.000.wav",
        "out/song.wav/media/song.wav.001.wav"] : List String).getD i "" =
        (fun p (_ : String) => p) (pathJoin "out/song.wav/media" (Split.chunkName "song.wav" "wav" i))
          "out/song.wav") := by
  constructor
  · rfl
  · have h := (C7_split_output_alignment (fun _ => ["0", "30"])
      (fun s => if s = "0" then .ok 0 else .ok 30) (fun p _ => p) (fun l => l) "0:30" true (.ok ())
      ["song.wav.wav001.wav", "song.wav.wav002.wav"] "out/song.wav/media" "song.wav" "wav"
      "out/song.wav"
      ⟨["out/song.wav/media/song.wav.000.wav", "out/song.wav/media/song.wav.001.wav"], 2, 30⟩
      (by rfl)).2
    intro i hi
    exact h i (by simpa using hi)

/-- C3: for every track whose fingerprint result file exists but fails to
parse as JSON, `process_file` executes no modules (neither fingerprint nor
fulltrack) and leaves the on-disk state — in particular the existing
result file — byte-identical. -/
theorem C3_corrupt_cache_untouched {R : Type} (parseJson : String → Option (Doc R))
    (dumpJson : Doc R → String) (ftParse : String → Option R) (ftDump : R → String)
    (fpModules ftModules : List (String × (Doc R → R))) (alwaysRun : List String)
    (st : Driver.TrackState) (s : String)
    (hex : st.fpContent = some s) (hparse : parseJson s = none) :
    Driver.process_file parseJson dumpJson ftParse ftDump fpModules ftModules alwaysRun st =
      ⟨[], [], [], st⟩ := by
  unfold Driver.process_file
  rw [hex]
  simp [Driver.load_existing_results, hparse]

/-- Witness for C3 at a concrete input: an existing but unparsable
fingerprint file. -/
theorem C3_corrupt_cache_untouched_witness :
    Driver.process_file (fun _ => (none : Option (Doc ℕ))) (fun _ => "d") (fun _ => none)
        (fun _ => "f") [("m1", fun _ => 1)] [("ft1", fun _ => 2)] [] ⟨some "garbage", []⟩ =
      ⟨[], [], [], ⟨some "garbage", []⟩⟩ :=
  C3_corrupt_cache_untouched (fun _ => none) (fun _ => "d") (fun _ => none) (fun _ => "f")
    [("m1", fun _ => 1)] [("ft1", fun _ => 2)] [] ⟨some "garbage", []⟩ "garbage" rfl rfl

/-- C2 counterexample: a fingerprint file whose content parses to the
empty document (valid JSON `\x7b\x7d`) is a loaded result document, yet
the truthiness test in main.py line 171 (`if not fingerprint_result and
os.path.exists(...)`) conflates it with corruption and skips the whole
track: module "a" is skipped even though its name is not a key of the
loaded document and ALWAYS_RUN is empty — refuting the claimed "skipped
iff cached and not force-listed" biconditional, which says "a" should
have run. -/
theorem C2_counterexample :
    "a" ∉ (Driver.process_file (fun _ => (some [] : Option (Doc ℕ))) (fun _ => "d")
        (fun _ => none) (fun _ => "f") [("a", fun _ => 1)] [] []
        ⟨some "\x7b\x7d", []⟩).fpRan ∧
    ¬(containsKey (Driver.load_existing_results (fun _ => (some [] : Option (Doc ℕ)))
        (some "\x7b\x7d")) "a" = true ∧ "a" ∉ ([] : List String)) := by
  decide

/-- C2 (amended): unless the fingerprint file exists but its loaded
document is empty — the case main.py line 171 conflates with corruption
and skips the whole track — a fingerprint module is skipped iff its name
is already a key of the loaded document and it is not force-listed in
ALWAYS_RUN; every module that does run has its result (success or error
alike — the driver never looks inside) stored under its key in the
in-memory document, the value present at save time being the module's
`process` applied to the document as it stood at that module's turn. -/
theorem C2_resumability_rule {R : Type} (parseJson : String → Option (Doc R))
    (dumpJson : Doc R → String) (ftParse : String → Option R) (ftDump : R → String)
    (fpModules ftModules : List (String × (Doc R → R))) (alwaysRun : List String)
    (st : Driver.TrackState)
    (hskip : ((Driver.load_existing_results parseJson st.fpContent).isEmpty &&
      st.fpContent.isSome) = false) :
    (∀ name ∈ fpModules.map Prod.fst,
      (name ∉ (Driver.process_file parseJson dumpJson ftParse ftDump fpModules ftModules
          alwaysRun st).fpRan ↔
        containsKey (Driver.load_existing_results parseJson st.fpContent) name = true ∧
          name ∉ alwaysRun)) ∧
    (∀ pre name suf m,
      (Driver.process_file parseJson dumpJson ftParse ftDump fpModules ftModules
          alwaysRun st).fpRan = pre ++ name :: suf →
      name ∉ suf → getKey fpModules name = some m →
      getKey (Driver.process_file parseJson dumpJson ftParse ftDump fpModules ftModules
          alwaysRun st).fpDoc name =
        some (m (Driver.runModules fpModules pre
          (Driver.load_existing_results parseJson st.fpContent)))) := by
  rw [Driver.process_file_eq parseJson dumpJson ftParse ftDump fpModules ftModules
        alwaysRun st hskip]
  constructor
  · intro name hmem
    simp only [Driver.modulesToRun, List.mem_filter]
    constructor
    · intro hnot
      by_cases hck : containsKey (Driver.load_existing_results parseJson st.fpContent) name = true
      · by_cases hal : name ∈ alwaysRun
        · exact absurd ⟨hmem, by simp [hal]⟩ hnot
        · exact ⟨hck, hal⟩
      · exact absurd ⟨hmem, by simp [Bool.not_eq_true _ ▸ hck]⟩ hnot
    · rintro ⟨hck, hal⟩ hfil
      rcases hfil with ⟨-, hp⟩
      simp [hck, hal] at hp
  · intro pre name suf m heq hnot hm
    simp only at heq
    rw [heq, Driver.runModules_append]
    have hstep : Driver.runModules fpModules (name :: suf)
        (Driver.runModules fpModules pre (Driver.load_existing_results parseJson st.fpContent)) =
        Driver.runModules fpModules suf
          (setKey (Driver.runModules fpModules pre
              (Driver.load_existing_results parseJson st.fpContent)) name
            (m (Driver.runModules fpModules pre
              (Driver.load_existing_results parseJson st.fpContent)))) := by
      simp only [Driver.runModules, List.foldl_cons, hm]
    rw [hstep, Driver.getKey_runModules_not_mem fpModules suf _ name hnot, getKey_setKey_self]

/-- Witness for C2 at a concrete input: module "a" cached (skipped),
module "b" uncached (runs and overwrites its key). -/
theorem C2_resumability_rule_witness :
    let out := Driver.process_file (fun _ => (some [("a", 5)] : Option (Doc ℕ))) (fun _ => "d")
      (fun _ => none) (fun _ => "f") [("a", fun _ => 7), ("b", fun _ => 8)] [] [] ⟨some "x", []⟩
    ("a" ∉ out.fpRan ↔
      containsKey (Driver.load_existing_results (fun _ => (some [("a", 5)] : Option (Doc ℕ)))
        (some "x")) "a" = true ∧ "a" ∉ ([] : List String)) ∧
    getKey out.fpDoc "b" = some 8 := by
  intro out
  have h := C2_resumability_rule (fun _ => (some [("a", 5)] : Option (Doc ℕ))) (fun _ => "d")
    (fun _ => none) (fun _ => "f") [("a", fun _ => 7), ("b", fun _ => 8)] [] [] ⟨some "x", []⟩
    (by rfl)
  exact ⟨h.1 "a" (by simp), h.2 [] "b" [] (fun _ => 8) (by rfl) (by simp) (by rfl)⟩

/-- C10: after any run of `process_file` that reaches the save step (some
fingerprint module ran, no corrupt-cache skip), every fingerprint module
name is a key of the persisted document — including names whose stored
value is a top-level error, since the driver stores results without
inspecting them — and on a subsequent run over the saved state with an
empty ALWAYS_RUN (and a JSON round-trip `parse (dump d) = d`), no
fingerprint module runs at all: previously errored modules stay cached. -/
theorem C10_errors_stay_cached {R : Type} (parseJson : String → Option (Doc R))
    (dumpJson : Doc R → String) (ftParse : String → Option R) (ftDump : R → String)
    (fpModules ftModules : List (String × (Doc R → R))) (alwaysRun : List String)
    (st : Driver.TrackState) (out : Driver.RunOutcome R)
    (hout : out = Driver.process_file parseJson dumpJson ftParse ftDump fpModules ftModules
      alwaysRun st)
    (hskip : ((Driver.load_existing_results parseJson st.fpContent).isEmpty &&
      st.fpContent.isSome) = false)
    (hsave : out.fpRan ≠ [])
    (hround : parseJson (dumpJson out.fpDoc) = some out.fpDoc) :
    (∀ name ∈ fpModules.map Prod.fst, containsKey out.fpDoc name = true) ∧
    out.state.fpContent = some (dumpJson out.fpDoc) ∧
    (Driver.process_file parseJson dumpJson ftParse ftDump fpModules ftModules []
      out.state).fpRan = [] := by
  rw [Driver.process_file_eq parseJson dumpJson ftParse ftDump fpModules ftModules
        alwaysRun st hskip] at hout
  have hkeys : ∀ name ∈ fpModules.map Prod.fst, containsKey out.fpDoc name = true := by
    intro name hmem
    rw [hout]
    simp only
    by_cases hrun : name ∈ Driver.modulesToRun (fpModules.map Prod.fst)
        (Driver.load_existing_results parseJson st.fpContent) alwaysRun
    · exact Driver.containsKey_runModules_of_mem fpModules _ _ name hrun
        (getKey_isSome_of_mem_keys fpModules name hmem)
    · have hck : containsKey (Driver.load_existing_results parseJson st.fpContent) name
          = true := by
        by_cases hc : containsKey (Driver.load_existing_results parseJson st.fpContent) name
            = true
        · exact hc
        · exfalso
          apply hrun
          simp only [Driver.modulesToRun, List.mem_filter]
          exact ⟨hmem, by simp [Bool.not_eq_true _ ▸ hc]⟩
      exact Driver.containsKey_runModules_mono fpModules _ _ name hck
  have hfpRanEq : out.fpRan = Driver.modulesToRun (fpModules.map Prod.fst)
      (Driver.load_existing_results parseJson st.fpContent) alwaysRun := by
    rw [hout]
  have hTR : Driver.modulesToRun (fpModules.map Prod.fst)
      (Driver.load_existing_results parseJson st.fpContent) alwaysRun ≠ [] := by
    rw [← hfpRanEq]; exact hsave
  have hcontent : out.state.fpContent = some (dumpJson out.fpDoc) := by
    rw [hout]
    simp only
    rw [if_neg (by simpa [List.isEmpty_iff] using hTR)]
  refine ⟨hkeys, hcontent, ?_⟩
  have hdocne : out.fpDoc ≠ [] := by
    obtain ⟨name, hname⟩ := List.exists_mem_of_ne_nil _ hTR
    have hnames : name ∈ fpModules.map Prod.fst := by
      have := List.mem_filter.mp hname
      exact this.1
    have := hkeys name hnames
    intro hnil
    rw [hnil] at this
    simp [containsKey, getKey] at this
  have hload2 : Driver.load_existing_results parseJson (some (dumpJson out.fpDoc))
      = out.fpDoc := by
    simp [Driver.load_existing_results, hround]
  have hskip2 : ((Driver.load_existing_results parseJson
      (Driver.TrackState.fpContent ⟨some (dumpJson out.fpDoc), out.state.ftContents⟩)).isEmpty &&
      (Driver.TrackState.fpContent ⟨some (dumpJson out.fpDoc), out.state.ftContents⟩).isSome)
      = false := by
    simp only [hload2]
    simp [List.isEmpty_iff, hdocne]
  have hstate : out.state = ⟨some (dumpJson out.fpDoc), out.state.ftContents⟩ := by
    cases hst : out.state with
    | mk fp ft =>
        have : fp = some (dumpJson out.fpDoc) := by rw [← hcontent, hst]
        rw [this]
  rw [hstate]
  rw [Driver.process_file_eq parseJson dumpJson ftParse ftDump fpModules ftModules []
        ⟨some (dumpJson out.fpDoc), out.state.ftContents⟩ hskip2]
  simp only [hload2]
  simp only [Driver.modulesToRun]
  rw [List.filter_eq_nil_iff]
  intro name hmem
  simp [hkeys name hmem]

/-- Witness for C10 at a concrete input: one module, empty cache, its
(error-shaped) result is saved and the second run skips it. -/
theorem C10_errors_stay_cached_witness :
    (∀ name ∈ ([("m1", fun _ => 1)] : List (String × (Doc ℕ → ℕ))).map Prod.fst,
      containsKey (Driver.process_file
        (fun s => if s = "d" then some [("m1", 1)] else none) (fun _ => "d") (fun _ => none)
        (fun _ => "f") [("m1", fun _ => 1)] [] [] ⟨none, []⟩).fpDoc name = true) ∧
    (Driver.process_file (fun s => if s = "d" then some [("m1", 1)] else none) (fun _ => "d")
      (fun _ => none) (fun _ => "f") [("m1", fun _ => 1)] [] [] ⟨none, []⟩).state.fpContent =
      some ((fun _ => "d") (Driver.process_file
        (fun s => if s = "d" then some [("m1", 1)] else none) (fun _ => "d") (fun _ => none)
        (fun _ => "f") [("m1", fun _ => 1)] [] [] ⟨none, []⟩).fpDoc) ∧
    (Driver.process_file (fun s => if s = "d" then some [("m1", 1)] else none) (fun _ => "d")
      (fun _ => none) (fun _ => "f") [("m1", fun _ => 1)] []
      [] (Driver.process_file (fun s => if s = "d" then some [("m1", 1)] else none)
        (fun _ => "d") (fun _ => none) (fun _ => "f") [("m1", fun _ => 1)] [] []
        ⟨none, []⟩).state).fpRan = [] :=
  C10_errors_stay_cached (fun s => if s = "d" then some [("m1", 1)] else none) (fun _ => "d")
    (fun _ => none) (fun _ => "f") [("m1", fun _ => 1)] [] [] ⟨none, []⟩ _ rfl rfl
    (by decide) (by decide)

/-- A concrete module-result type for the driver counterexample: a value
is either a top-level `{"error": ...}` or a success payload. -/
inductive MVal where
  | errV (s : String)
  | okV (n : ℕ)
deriving DecidableEq

/-- C1 counterexample: with an empty cache and ALWAYS_RUN = [], fingerprint
module "m1" returns a top-level error (`MVal.errV "boom"`), yet the driver
still executes "m2" (its result appears in the document and in `fpRan`)
and persists the fingerprint document for this run (`fpContent` goes from
`none` to the dump) — the fingerprint loop in main.py lines 181-189 never
inspects results and the save at lines 187-189 is unconditional once any
module ran, so the claimed fail-fast and skip-of-persistence do not
happen. -/
theorem C1_counterexample :
    (Driver.process_file (fun _ => (none : Option (Doc MVal))) (fun _ => "saved")
        (fun _ => none) (fun _ => "")
        [("m1", fun _ => .errV "boom"), ("m2", fun _ => .okV 7)] [] [] ⟨none, []⟩).fpRan
        = ["m1", "m2"] ∧
    (Driver.process_file (fun _ => (none : Option (Doc MVal))) (fun _ => "saved")
        (fun _ => none) (fun _ => "")
        [("m1", fun _ => .errV "boom"), ("m2", fun _ => .okV 7)] [] [] ⟨none, []⟩).fpDoc
        = [("m1", .errV "boom"), ("m2", .okV 7)] ∧
    (Driver.process_file (fun _ => (none : Option (Doc MVal))) (fun _ => "saved")
        (fun _ => none) (fun _ => "")
        [("m1", fun _ => .errV "boom"), ("m2", fun _ => .okV 7)] [] []
        ⟨none, []⟩).state.fpContent = some "saved" := by
  refine ⟨?_, ?_, ?_⟩ <;> rfl

/-- C1 (amended): the fingerprint phase has no fail-fast at all — whatever
any module returns, the driver runs every selected fingerprint module in
declared order, stores each result (error or success) under its key, and
persists the document (with error values included) whenever at least one
module ran; and the fulltrack phase is independent of the fingerprint
results: which fulltrack modules run is decided solely by their own cache
files and ALWAYS_RUN. -/
theorem C1_amended_no_failfast {R : Type} (parseJson : String → Option (Doc R))
    (dumpJson : Doc R → String) (ftParse : String → Option R) (ftDump : R → String)
    (fpModules ftModules : List (String × (Doc R → R))) (alwaysRun : List String)
    (st : Driver.TrackState)
    (hskip : ((Driver.load_existing_results parseJson st.fpContent).isEmpty &&
      st.fpContent.isSome) = false)
    (hftnd : (ftModules.map Prod.fst).Nodup) :
    (Driver.process_file parseJson dumpJson ftParse ftDump fpModules ftModules alwaysRun
        st).fpRan =
      Driver.modulesToRun (fpModules.map Prod.fst)
        (Driver.load_existing_results parseJson st.fpContent) alwaysRun ∧
    (Driver.process_file parseJson dumpJson ftParse ftDump fpModules ftModules alwaysRun
        st).fpDoc =
      Driver.runModules fpModules
        (Driver.process_file parseJson dumpJson ftParse ftDump fpModules ftModules alwaysRun
          st).fpRan
        (Driver.load_existing_results parseJson st.fpContent) ∧
    ((Driver.process_file parseJson dumpJson ftParse ftDump fpModules ftModules alwaysRun
        st).fpRan ≠ [] →
      (Driver.process_file parseJson dumpJson ftParse ftDump fpModules ftModules alwaysRun
          st).state.fpContent =
        some (dumpJson (Driver.process_file parseJson dumpJson ftParse ftDump fpModules
          ftModules alwaysRun st).fpDoc)) ∧
    (Driver.process_file parseJson dumpJson ftParse ftDump fpModules ftModules alwaysRun
        st).ftRan =
      (ftModules.map Prod.fst).filter
        (fun n => !containsKey st.ftContents n || alwaysRun.contains n) := by
  rw [Driver.process_file_eq parseJson dumpJson ftParse ftDump fpModules ftModules
        alwaysRun st hskip]
  refine ⟨rfl, rfl, ?_, ?_⟩
  · intro hne
    simp only at hne ⊢
    rw [if_neg (by simpa [List.isEmpty_iff] using hne)]
  · simp only
    rw [Driver.ftFold_ran ftParse ftDump ftModules alwaysRun _ ftModules st.ftContents []
          hftnd]
    simp

/-- Witness for C1's amended theorem at a concrete input (the same inputs
as the counterexample, plus one fulltrack module). -/
theorem C1_amended_no_failfast_witness :
    (Driver.process_file (fun _ => (none : Option (Doc MVal))) (fun _ => "saved")
        (fun _ => none) (fun _ => "")
        [("m1", fun _ => .errV "boom"), ("m2", fun _ => .okV 7)] [("ft1", fun _ => .okV 1)]
        [] ⟨none, []⟩).fpRan =
      Driver.modulesToRun ["m1", "m2"]
        (Driver.load_existing_results (fun _ => (none : Option (Doc MVal))) none) [] ∧
    (Driver.process_file (fun _ => (none : Option (Doc MVal))) (fun _ => "saved")
        (fun _ => none) (fun _ => "")
        [("m1", fun _ => .errV "boom"), ("m2", fun _ => .okV 7)] [("ft1", fun _ => .okV 1)]
        [] ⟨none, []⟩).fpDoc =
      Driver.runModules [("m1", fun _ => .errV "boom"), ("m2", fun _ => .okV 7)]
        (Driver.process_file (fun _ => (none : Option (Doc MVal))) (fun _ => "saved")
          (fun _ => none) (fun _ => "")
          [("m1", fun _ => .errV "boom"), ("m2", fun _ => .okV 7)] [("ft1", fun _ => .okV 1)]
          [] ⟨none, []⟩).fpRan
        (Driver.load_existing_results (fun _ => (none : Option (Doc MVal))) none) ∧
    ((Driver.process_file (fun _ => (none : Option (Doc MVal))) (fun _ => "saved")
        (fun _ => none) (fun _ => "")
        [("m1", fun _ => .errV "boom"), ("m2", fun _ => .okV 7)] [("ft1", fun _ => .okV 1)]
        [] ⟨none, []⟩).fpRan ≠ [] →
      (Driver.process_file (fun _ => (none : Option (Doc MVal))) (fun _ => "saved")
          (fun _ => none) (fun _ => "")
          [("m1", fun _ => .errV "boom"), ("m2", fun _ => .okV 7)] [("ft1", fun _ => .okV 1)]
          [] ⟨none, []⟩).state.fpContent =
        some ((fun _ => "saved") (Driver.process_file (fun _ => (none : Option (Doc MVal)))
          (fun _ => "saved") (fun _ => none) (fun _ => "")
          [("m1", fun _ => .errV "boom"), ("m2", fun _ => .okV 7)] [("ft1", fun _ => .okV 1)]
          [] ⟨none, []⟩).fpDoc)) ∧
    (Driver.process_file (fun _ => (none : Option (Doc MVal))) (fun _ => "saved")
        (fun _ => none) (fun _ => "")
        [("m1", fun _ => .errV "boom"), ("m2", fun _ => .okV 7)] [("ft1", fun _ => .okV 1)]
        [] ⟨none, []⟩).ftRan =
      (["ft1"] : List String).filter (fun n => !containsKey ([] : Doc String) n ||
        ([] : List String).contains n) :=
  C1_amended_no_failfast (fun _ => (none : Option (Doc MVal))) (fun _ => "saved")
    (fun _ => none) (fun _ => "")
    [("m1", fun _ => .errV "boom"), ("m2", fun _ => .okV 7)] [("ft1", fun _ => .okV 1)]
    [] ⟨none, []⟩ (by rfl) (by simp)

/-- C8: the Parallel Work Splitter returns one result per input item, in
input order, the i-th output being the callback's value on the i-th item —
identically for every `max_workers`, both execution modes, and every
completion order (`schedule`).  (Modelled from the spec: the implementing
`lib/chunk_parallel_process.py` is not in the snapshot, see
`chunk_parallel_process`.) -/
theorem C8_parallel_order_invariance {α Ctx : Type} [Inhabited α]
    (callback : ℕ → String → String → Ctx → α)
    (chunk_list : List String) (out_path : String) (context : Ctx)
    (max_workers : Option ℕ) (use_processes : Bool) (schedule : List ℕ)
    (hsch : schedule.Perm (List.range chunk_list.length)) :
    chunk_parallel_process callback chunk_list out_path context max_workers use_processes schedule =
      (List.range chunk_list.length).map
        (fun i => callback i (chunk_list.getD i "") (pathJoin out_path (chunk_list.getD i "")) context) ∧
    (chunk_parallel_process callback chunk_list out_path context max_workers use_processes
        schedule).length = chunk_list.length ∧
    ∀ i, i < chunk_list.length →
      (chunk_parallel_process callback chunk_list out_path context max_workers use_processes
          schedule).getD i default =
        callback i (chunk_list.getD i "") (pathJoin out_path (chunk_list.getD i "")) context := by
  have heq := chunk_parallel_process_eq callback chunk_list out_path context max_workers
    use_processes schedule hsch
  refine ⟨heq, ?_, ?_⟩
  · rw [heq]; simp
  · intro i hi
    rw [heq, List.getD_eq_getElem _ _ (by simpa using hi)]
    simp

/-- C9: for non-empty banded inputs, each Cross-Module Aggregator
(`dynamic_range.py` over dynamics+quantization, `audio_quality.py` over
quantization+harmonics) errors iff the two band key sets differ, or some
band of the primary input disagrees with the secondary in chunk count or
positional chunk names; on success the output's band keys are exactly the
primary input's band keys and each band's list has one entry per input
entry, in the same chunk order. -/
theorem C9_aggregator_validation :
    (∀ (fb : ℚ) (dyn quant : Doc (List Entry)) (dfs : List Entry),
      dyn ≠ [] → quant ≠ [] → (keysOf dyn).Nodup →
      (((DynamicRange.process fb dyn quant dfs).isError = true ↔
        ((keysOf dyn).toFinset ≠ (keysOf quant).toFinset ∨
         ∃ band ∈ keysOf dyn,
           (getD dyn band []).length ≠ (getD quant band []).length ∨
           (getD dyn band []).map Entry.chunk ≠ (getD quant band []).map Entry.chunk)) ∧
       ∀ d, DynamicRange.process fb dyn quant dfs = .result d →
         keysOf d = keysOf dyn ∧
         ∀ band ∈ keysOf dyn, ∃ l, getKey d band = some l ∧
           l.length = (getD dyn band []).length ∧
           ∀ i, i < (getD dyn band []).length →
             (l.getD i default).chunk = ((getD dyn band []).getD i default).chunk)) ∧
    (∀ (pow2 : ℚ → ℚ) (sinad : String → AudioQuality.SinadResult)
       (quant harm : Doc (List Entry)) (hfs : List Entry),
      quant ≠ [] → harm ≠ [] → (keysOf quant).Nodup →
      (((AudioQuality.process pow2 sinad quant harm hfs).isError = true ↔
        ((keysOf quant).toFinset ≠ (keysOf harm).toFinset ∨
         ∃ band ∈ keysOf quant,
           (getD quant band []).length ≠ (getD harm band []).length ∨
           (getD quant band []).map Entry.chunk ≠ (getD harm band []).map Entry.chunk)) ∧
       ∀ d, AudioQuality.process pow2 sinad quant harm hfs = .result d →
         keysOf d = keysOf quant ∧
         ∀ band ∈ keysOf quant, ∃ l, getKey d band = some l ∧
           l.length = (getD quant band []).length ∧
           ∀ i, i < (getD quant band []).length →
             (l.getD i default).chunk = ((getD quant band []).getD i default).chunk)) := by
  constructor
  · intro fb dyn quant dfs hdne hqne hdnd
    have h1 : dyn.isEmpty = false := by
      cases dyn with
      | nil => exact absurd rfl hdne
      | cons a l => rfl
    have h2 : quant.isEmpty = false := by
      cases quant with
      | nil => exact absurd rfl hqne
      | cons a l => rfl
    by_cases hset : (keysOf dyn).toFinset = (keysOf quant).toFinset
    · cases hfb : DynamicRange.findBandMismatch dyn quant with
      | some er =>
          have hproc : DynamicRange.process fb dyn quant dfs = .error er := by
            unfold DynamicRange.process
            rw [if_neg (by rw [h1]; exact Bool.false_ne_true),
                if_neg (by rw [h2]; exact Bool.false_ne_true),
                if_neg (not_not_intro hset), hfb]
          refine ⟨?_, ?_⟩
          · rw [hproc]
            constructor
            · intro _
              have hne : DynamicRange.findBandMismatch dyn quant ≠ none := by
                rw [hfb]; exact Option.some_ne_none er
              rw [Ne, DynamicRange.dr_findBandMismatch_none_iff] at hne
              push_neg at hne
              obtain ⟨band, hbmem, hb⟩ := hne
              by_cases hlen : (getD dyn band []).length = (getD quant band []).length
              · exact Or.inr ⟨band, hbmem, Or.inr (hb hlen)⟩
              · exact Or.inr ⟨band, hbmem, Or.inl hlen⟩
            · intro _; rfl
          · intro d hd
            rw [hproc] at hd
            exact BandedOut.noConfusion hd
      | none =>
          have hall := (DynamicRange.dr_findBandMismatch_none_iff dyn quant).mp hfb
          have hstep : DynamicRange.process fb dyn quant dfs =
              .result ((keysOf dyn).foldl
                (fun out band => setKey out band ((List.range (getD dyn band []).length).map
                  (fun i => DynamicRange.drEntry fb (DynamicRange.overallCrestLookup dfs)
                    ((getD dyn band []).getD i default)
                    ((getD quant band []).getD i default)))) []) := by
            unfold DynamicRange.process
            rw [if_neg (by rw [h1]; exact Bool.false_ne_true),
                if_neg (by rw [h2]; exact Bool.false_ne_true),
                if_neg (not_not_intro hset), hfb]
          have hfold := initFold (keysOf dyn) (fun b => b)
            (fun band => (List.range (getD dyn band []).length).map
              (fun i => DynamicRange.drEntry fb (DynamicRange.overallCrestLookup dfs)
                ((getD dyn band []).getD i default)
                ((getD quant band []).getD i default)))
            [] hdnd (fun i _ j _ h => h) (fun i _ => rfl)
          rw [hfold, List.nil_append] at hstep
          refine ⟨?_, ?_⟩
          · rw [hstep]
            constructor
            · intro h
              exact absurd h Bool.false_ne_true
            · intro hrhs
              exfalso
              rcases hrhs with h | ⟨band, hbmem, h | h⟩
              · exact h hset
              · exact h (hall band hbmem).1
              · exact h (hall band hbmem).2
          · intro d hd
            rw [hstep] at hd
            injection hd with hd
            subst hd
            constructor
            · rw [keysOf_mapForm (keysOf dyn) (fun b => b)]
              simp
            · intro band hbmem
              refine ⟨_, getKey_mapForm (keysOf dyn) (fun b => b) _
                (fun i _ j _ h => h) band hbmem, by simp, ?_⟩
              intro i hi
              rw [getD_range_map (getD dyn band []).length _ i hi default]
              rfl
    · have hproc : DynamicRange.process fb dyn quant dfs =
          .error "Band mismatch: dynamics and quantization band sets differ" := by
        unfold DynamicRange.process
        rw [if_neg (by rw [h1]; exact Bool.false_ne_true),
            if_neg (by rw [h2]; exact Bool.false_ne_true),
            if_pos hset]
      refine ⟨?_, ?_⟩
      · rw [hproc]
        constructor
        · intro _; exact Or.inl hset
        · intro _; rfl
      · intro d hd
        rw [hproc] at hd
        exact BandedOut.noConfusion hd
  · intro pow2 sinad quant harm hfs hqne hhne hqnd
    have h1 : quant.isEmpty = false := by
      cases quant with
      | nil => exact absurd rfl hqne
      | cons a l => rfl
    have h2 : harm.isEmpty = false := by
      cases harm with
      | nil => exact absurd rfl hhne
      | cons a l => rfl
    by_cases hset : (keysOf quant).toFinset = (keysOf harm).toFinset
    · cases hfb : AudioQuality.findBandMismatch quant harm with
      | some er =>
          have hproc : AudioQuality.process pow2 sinad quant harm hfs = .error er := by
            unfold AudioQuality.process
            rw [if_neg (by rw [h1]; exact Bool.false_ne_true),
                if_neg (by rw [h2]; exact Bool.false_ne_true),
                if_neg (not_not_intro hset), hfb]
          refine ⟨?_, ?_⟩
          · rw [hproc]
            constructor
            · intro _
              have hne : AudioQuality.findBandMismatch quant harm ≠ none := by
                rw [hfb]; exact Option.some_ne_none er
              rw [Ne, AudioQuality.aq_findBandMismatch_none_iff] at hne
              push_neg at hne
              obtain ⟨band, hbmem, hb⟩ := hne
              by_cases hlen : (getD quant band []).length = (getD harm band []).length
              · exact Or.inr ⟨band, hbmem, Or.inr (hb hlen)⟩
              · exact Or.inr ⟨band, hbmem, Or.inl hlen⟩
            · intro _; rfl
          · intro d hd
            rw [hproc] at hd
            exact BandedOut.noConfusion hd
      | none =>
          have hall := (AudioQuality.aq_findBandMismatch_none_iff quant harm).mp hfb
          have hstep : AudioQuality.process pow2 sinad quant harm hfs =
              .result ((keysOf quant).dedup.foldl
                (fun out band => setKey out band ((List.range (getD quant band []).length).map
                  (fun i => AudioQuality.aqEntry pow2 sinad
                    (AudioQuality.flatnessLookup hfs)
                    ((getD quant band []).getD i default)
                    ((getD harm band []).getD i default)))) []) := by
            unfold AudioQuality.process
            rw [if_neg (by rw [h1]; exact Bool.false_ne_true),
                if_neg (by rw [h2]; exact Bool.false_ne_true),
                if_neg (not_not_intro hset), hfb]
          have hfold := initFold (keysOf quant).dedup (fun b => b)
            (fun band => (List.range (getD quant band []).length).map
              (fun i => AudioQuality.aqEntry pow2 sinad
                (AudioQuality.flatnessLookup hfs)
                ((getD quant band []).getD i default)
                ((getD harm band []).getD i default)))
            [] (List.nodup_dedup (keysOf quant)) (fun i _ j _ h => h) (fun i _ => rfl)
          rw [hfold, List.nil_append] at hstep
          refine ⟨?_, ?_⟩
          · rw [hstep]
            constructor
            · intro h
              exact absurd h Bool.false_ne_true
            · intro hrhs
              exfalso
              rcases hrhs with h | ⟨band, hbmem, h | h⟩
              · exact h hset
              · exact h (hall band hbmem).1
              · exact h (hall band hbmem).2
          · intro d hd
            rw [hstep] at hd
            injection hd with hd
            subst hd
            constructor
            · rw [keysOf_mapForm (keysOf quant).dedup (fun b => b)]
              simpa using List.dedup_eq_self.mpr hqnd
            · intro band hbmem
              refine ⟨_, getKey_mapForm (keysOf quant).dedup (fun b => b) _
                (fun i _ j _ h => h) band (List.mem_dedup.mpr hbmem), by simp, ?_⟩
              intro i hi
              rw [getD_range_map (getD quant band []).length _ i hi default]
              rfl
    · have hproc : AudioQuality.process pow2 sinad quant harm hfs =
          .error "Band mismatch: quantization and harmonics band sets differ" := by
        unfold AudioQuality.process
        rw [if_neg (by rw [h1]; exact Bool.false_ne_true),
            if_neg (by rw [h2]; exact Bool.false_ne_true),
            if_pos hset]
      refine ⟨?_, ?_⟩
      · rw [hproc]
        constructor
        · intro _; exact Or.inl hset
        · intro _; rfl
      · intro d hd
        rw [hproc] at hd
        exact BandedOut.noConfusion hd

/-- Witness for C9 at a concrete input: one band, one chunk, matching
inputs on both aggregators — both error-iff characterisations
instantiated. -/
theorem C9_aggregator_validation_witness :
    ((DynamicRange.process 0 [("b", [(⟨"c", [], none⟩ : Entry)])]
        [("b", [(⟨"c", [], none⟩ : Entry)])] []).isError = true ↔
      ((keysOf [("b", [(⟨"c", [], none⟩ : Entry)])]).toFinset ≠
          (keysOf [("b", [(⟨"c", [], none⟩ : Entry)])]).toFinset ∨
       ∃ band ∈ keysOf [("b", [(⟨"c", [], none⟩ : Entry)])],
         (getD [("b", [(⟨"c", [], none⟩ : Entry)])] band []).length ≠
           (getD [("b", [(⟨"c", [], none⟩ : Entry)])] band []).length ∨
         (getD [("b", [(⟨"c", [], none⟩ : Entry)])] band []).map Entry.chunk ≠
           (getD [("b", [(⟨"c", [], none⟩ : Entry)])] band []).map Entry.chunk)) ∧
    ((AudioQuality.process (fun q => q) (fun _ => ⟨none, none, none, none, 0, none⟩)
        [("b", [(⟨"c", [], none⟩ : Entry)])]
        [("b", [(⟨"c", [], none⟩ : Entry)])] []).isError = true ↔
      ((keysOf [("b", [(⟨"c", [], none⟩ : Entry)])]).toFinset ≠
          (keysOf [("b", [(⟨"c", [], none⟩ : Entry)])]).toFinset ∨
       ∃ band ∈ keysOf [("b", [(⟨"c", [], none⟩ : Entry)])],
         (getD [("b", [(⟨"c", [], none⟩ : Entry)])] band []).length ≠
           (getD [("b", [(⟨"c", [], none⟩ : Entry)])] band []).length ∨
         (getD [("b", [(⟨"c", [], none⟩ : Entry)])] band []).map Entry.chunk ≠
           (getD [("b", [(⟨"c", [], none⟩ : Entry)])] band []).map Entry.chunk)) :=
  ⟨(C9_aggregator_validation.1 0 [("b", [(⟨"c", [], none⟩ : Entry)])]
      [("b", [(⟨"c", [], none⟩ : Entry)])] []
      (by decide) (by decide) (by decide)).1,
   (C9_aggregator_validation.2 (fun q => q) (fun _ => ⟨none, none, none, none, 0, none⟩)
      [("b", [(⟨"c", [], none⟩ : Entry)])]
      [("b", [(⟨"c", [], none⟩ : Entry)])] []
      (by decide) (by decide) (by decide)).1⟩

/-- Witness for C8 at a concrete input: three items completing in reversed
order under threads, same output as input order. -/
theorem C8_parallel_order_invariance_witness :
    chunk_parallel_process (fun i fname path (_ : Unit) => (i, fname, path))
        ["a", "b", "c"] "out" () (some 16) false [2, 0, 1] =
      (List.range 3).map (fun i =>
        (i, (["a", "b", "c"] : List String).getD i "",
          pathJoin "out" ((["a", "b", "c"] : List String).getD i ""))) :=
  (C8_parallel_order_invariance (fun i fname path _ => (i, fname, path))
    ["a", "b", "c"] "out" () (some 16) false [2, 0, 1] (by decide)).1

end Sda
